import Mathlib

/-!
# chissoku: device handshake, telemetry reader, dispatch and shutdown

A shallow embedding of `main.go` of the chissoku program (UD-CO2S sensor
reader).  Go strings are byte sequences; a line read from the device is
modelled as a list of characters, one list element per byte of the Go string
(the device protocol is ASCII).  Calls that leave the program (port writes,
channel sends, calls of outputter methods, the context cancel function) are
recorded in order in a trace.  A Go run-time panic is an explicit outcome.
-/

namespace Chissoku

/-! ## Strings and constants -/

/-- Go `string`: a sequence of bytes, one list element per byte. -/
abbrev Line := List Char

/-- Constant `CommandSTP` of main.go. -/
def CommandSTP : Line := "STP".toList
/-- Constant `CommandID` of main.go. -/
def CommandID : Line := "ID?".toList
/-- Constant `CommandSTA` of main.go. -/
def CommandSTA : Line := "STA".toList
/-- Constant `ResponseOK` of main.go. -/
def ResponseOK : Line := "OK".toList
/-- Constant `ResponseNG` of main.go. -/
def ResponseNG : Line := "NG".toList

/-- The line terminator appended to every command. -/
def crlf : Line := ['\r', '\n']

/-- Go slice expression `t[:n]` on a string: the first `n` bytes, and a
run-time panic (`none`) when `n` exceeds `len(t)`. -/
def sliceTo (t : Line) (n : Nat) : Option Line :=
  if n ≤ t.length then some (t.take n) else none

/-- Go `strings.HasPrefix(s, p)`. -/
def hasPrefix (s p : Line) : Bool := p.isPrefixOf s

/-! ## Data model -/

/-- Error values returned by the functions of main.go. -/
inductive Err where
  /-- Go `fmt.Errorf("command %v failed", cmd)` of prepareDevice. -/
  | commandFailed (cmd : Line)
  /-- Go `fmt.Errorf("no active outputters are avaiable")` of AfterApply. -/
  | noActiveOutputters
  /-- An error produced outside the program (port write, scanner, Initialize),
  identified by a code. -/
  | external (code : Nat)
  deriving DecidableEq, Repr

/-- The fields of `types.Data` that main.go assigns.  `F` is the type of the
float fields (`Float64` in the program), the timestamp is a clock reading. -/
structure Data (F : Type) where
  Timestamp : Nat
  CO2 : Int
  Humidity : F
  Temperature : F
  Tags : List String
  deriving DecidableEq, Repr

/-- Calls that leave the program, in the order they are made. -/
inductive Effect (O F : Type) where
  /-- Go `c.port.Write(bytes)`. -/
  | write (bytes : Line)
  /-- Go `c.rchan <- d`. -/
  | send (d : Data F)
  /-- Go `c.cancel()`. -/
  | cancel
  /-- Go `o.Initialize(ctx)` for the outputter `o` found under `name`. -/
  | init (name : String) (o : O)
  /-- Go `o.Output(d)` for the outputter `o` stored under `name`. -/
  | output (name : String) (o : O) (d : Data F)
  /-- Go `o.Close()` for the outputter `o` stored under `name`. -/
  | close (name : String) (o : O)
  /-- An invocation of `c.cleanup()` (recorded on every call, also when the
  once-guard suppresses the body). -/
  | cleanupCall
  deriving DecidableEq, Repr

/-- Go `map[string]output.Outputter` contents: the entries of the map. -/
abbrev GoMap (O : Type) := List (String × O)

/-- Go `m[k]` with the comma-ok form. -/
def GoMap.get {O : Type} (m : GoMap O) (k : String) : Option O :=
  match m with
  | [] => none
  | (k', o) :: rest => if k' = k then some o else GoMap.get rest k

/-- Go `delete(m, k)`. -/
def GoMap.delete {O : Type} (m : GoMap O) (k : String) : GoMap O :=
  m.filter (fun e => decide (e.1 ≠ k))

/-- Go `m[k] = o`. -/
def GoMap.set {O : Type} (m : GoMap O) (k : String) (o : O) : GoMap O :=
  match m with
  | [] => [(k, o)]
  | (k', o') :: rest => if k' = k then (k, o) :: rest else (k', o') :: GoMap.set rest k o

/-- Keys of a map. -/
def GoMap.keys {O : Type} (m : GoMap O) : List String := m.map Prod.fst

/-- The state of the `Chissoku` struct together with the part of the world it
talks to.  Maps are reference objects: `heap` gives the contents of the map at
each address and `activeOutputters` (an `atomic.Value`) holds an address. -/
structure State (O F : Type) where
  /-- Field `c.Options.Tags`. -/
  Tags : List String
  /-- Field `c.outputters`, the registry of available outputters. -/
  outputters : GoMap O
  /-- Contents of the map objects, by address. -/
  heap : Nat → GoMap O
  /-- Next free map address. -/
  next : Nat
  /-- Field `c.activeOutputters`: the stored map reference, `none` before any Store. -/
  activeOutputters : Option Nat
  /-- Whether `c.port` is non-nil. -/
  portOpen : Bool
  /-- Lines the scanner `c.scanner` has not delivered yet; when the list is
  exhausted `Scan` returns false (end of input, read error or timeout). -/
  scanner : List Line
  /-- Field `c.cleanup`: `none` is the nil func, `some false` the once-guarded
  closure not yet run, `some true` the closure after its body ran. -/
  cleanup : Option Bool
  /-- The calls made so far. -/
  trace : List (Effect O F)

/-- How a function ended. -/
inductive Outcome where
  /-- Normal return with the error result (`none` is nil). -/
  | returned (err : Option Err)
  /-- Run-time panic. -/
  | panicked
  deriving DecidableEq, Repr

/-! ## prepareDevice -/

/-- Result of the inner loop `for c.scanner.Scan() { ... }` of prepareDevice. -/
inductive Wait where
  /-- Go `break` on a line with prefix OK; the lines left in the scanner. -/
  | ok (rest : List Line)
  /-- Go `return fmt.Errorf(...)` on a line with prefix NG. -/
  | ng (rest : List Line)
  /-- Go `Scan` returned false: the inner loop ends normally. -/
  | done
  /-- Go `t[:2]` on a line shorter than two bytes. -/
  | panic
  deriving DecidableEq, Repr

/-- The inner loop of prepareDevice (main.go 276-283). -/
def awaitResponse : List Line → Wait
  | [] => .done
  | t :: rest =>
    match sliceTo t 2 with
    | none => .panic
    | some p =>
      if hasPrefix p ResponseOK then .ok rest
      else if hasPrefix p ResponseNG then .ng rest
      else awaitResponse rest

/-- The loop `for _, cmd := range commands` of prepareDevice (main.go 270-284),
at the command with index `i`.  `writeErr i` is the error result of the write
of the `i`-th command (`none` is nil).  A write on a nil port panics. -/
def prepareLoop {O F : Type} (writeErr : Nat → Option Nat) :
    Nat → List Line → State O F → State O F × Outcome
  | _, [], c => (c, .returned none)
  | i, cmd :: cmds, c =>
    if c.portOpen then
      let c1 := { c with trace := c.trace ++ [Effect.write (cmd ++ crlf)] }
      match writeErr i with
      | some e => (c1, .returned (some (.external e)))
      | none =>
        match awaitResponse c1.scanner with
        | .ok rest => prepareLoop writeErr (i + 1) cmds { c1 with scanner := rest }
        | .ng rest => ({ c1 with scanner := rest }, .returned (some (.commandFailed cmd)))
        | .done => prepareLoop writeErr (i + 1) cmds { c1 with scanner := [] }
        | .panic => (c1, .panicked)
    else (c, .panicked)

/-- The list `commands` of prepareDevice. -/
def commands : List Line := [CommandSTP, CommandID, CommandSTA]

/-- The function `prepareDevice` of main.go (257-286). -/
def prepareDevice {O F : Type} (writeErr : Nat → Option Nat) (c : State O F) :
    State O F × Outcome :=
  prepareLoop writeErr 0 commands c

/-! ## readDevice -/

/-- Go regexp class `\d` (ASCII digits). -/
def isDigit (ch : Char) : Bool := decide ('0' ≤ ch ∧ ch ≤ '9')
/-- Go regexp class `[0-9\.]`. -/
def isHumChar (ch : Char) : Bool := isDigit ch || ch == '.'
/-- Go regexp class `[0-9\.-]`. -/
def isTmpChar (ch : Char) : Bool := isDigit ch || ch == '.' || ch == '-'

/-- Match a literal at the start of `s`; the text after it. -/
def matchLit (lit s : Line) : Option Line :=
  if lit.isPrefixOf s then some (s.drop lit.length) else none

/-- Match `cls+` greedily at the start of `s`: the longest nonempty run of
characters of the class and the text after it. -/
def matchPlus (cls : Char → Bool) (s : Line) : Option (Line × Line) :=
  if (s.takeWhile cls).isEmpty then none else some (s.takeWhile cls, s.dropWhile cls)

/-- A match of the pattern `CO2=(\d+),HUM=([0-9\.]+),TMP=([0-9\.-]+)` that
starts at the first byte of `s`: its three capture groups.  Each repetition is
followed by a literal outside its class (or by the end of the pattern), so the
greedy run is the only candidate. -/
def matchAt (s : Line) : Option (Line × Line × Line) :=
  match matchLit "CO2=".toList s with
  | none => none
  | some s1 =>
    match matchPlus isDigit s1 with
    | none => none
    | some (g1, s2) =>
      match matchLit ",HUM=".toList s2 with
      | none => none
      | some s3 =>
        match matchPlus isHumChar s3 with
        | none => none
        | some (g2, s4) =>
          match matchLit ",TMP=".toList s4 with
          | none => none
          | some s5 =>
            match matchPlus isTmpChar s5 with
            | none => none
            | some (g3, _) => some (g1, g2, g3)

/-- The capture groups `m[0][1], m[0][2], m[0][3]` of
`re.FindAllStringSubmatch(text, -1)`: those of the leftmost match, `none` when
`len(m) == 0`. -/
def findFirst : Line → Option (Line × Line × Line)
  | [] => matchAt []
  | ch :: rest =>
    match matchAt (ch :: rest) with
    | some m => some m
    | none => findFirst rest

/-- Value of a string of decimal digits. -/
def decimal (s : Line) : Nat :=
  s.foldl (fun acc ch => 10 * acc + (ch.toNat - '0'.toNat)) 0

/-- Go `strconv.ParseInt(s, 10, 64)` with the error result dropped: 0 on a
syntax error, the nearest bound of int64 on a range error. -/
def parseInt (s : Line) : Int :=
  let neg := s.head? == some '-'
  let body := if s.head? == some '-' || s.head? == some '+' then s.drop 1 else s
  if body.isEmpty || !body.all isDigit then 0
  else if neg then
    (if decimal body > 2 ^ 63 then -(2 ^ 63 : Int) else -(decimal body : Int))
  else
    (if decimal body ≥ 2 ^ 63 then (2 ^ 63 - 1 : Int) else (decimal body : Int))

/-- Go float64 values as ParseFloat returns them: a sign with either the
finite magnitude `mant * 2 ^ exp` or infinity.  A finite value is kept in the
form of its encoding: `mant < 2 ^ 53`, `-1074 ≤ exp ≤ 971`, and `2 ^ 52 ≤ mant`
unless `exp = -1074` (subnormal numbers and zero). -/
inductive Float64 where
  | finite (neg : Bool) (mant : Nat) (exp : Int)
  | inf (neg : Bool)
  deriving DecidableEq, Repr

/-- The float64 value +0, which ParseFloat returns with a syntax error. -/
def Float64.zero : Float64 := .finite false 0 (-1074)

/-- The fraction `n / d` rounded to the nearest natural number, ties to even. -/
def roundHalfEven (n d : Nat) : Nat :=
  if 2 * (n % d) < d then n / d
  else if d < 2 * (n % d) then n / d + 1
  else if (n / d) % 2 = 0 then n / d else n / d + 1

/-- Floor of the base-2 logarithm of `n` (0 for `n = 0`), by halving at most
`fuel` times. -/
def ilog2 : Nat → Nat → Nat
  | 0, _ => 0
  | fuel + 1, n => if n < 2 then 0 else ilog2 fuel (n / 2) + 1

/-- Floor of the base-2 logarithm of the fraction `n / d`, for `n, d > 0`. -/
def floorLog2 (n d : Nat) : Int :=
  let l0 : Int := (ilog2 n n : Int) - (ilog2 d d : Int)
  if (if 0 ≤ l0 then decide (d * 2 ^ l0.toNat ≤ n) else decide (d ≤ n * 2 ^ (-l0).toNat))
  then l0 else l0 - 1

/-- The fraction `n / d` divided by `2 ^ e` and rounded to the nearest natural
number, ties to even. -/
def scaled (n d : Nat) (e : Int) : Nat :=
  if 0 ≤ e then roundHalfEven n (d * 2 ^ e.toNat) else roundHalfEven (n * 2 ^ (-e).toNat) d

/-- The float64 nearest to `n / d` with the sign `neg` (IEEE 754 round to
nearest, ties to even; infinity when the rounded value exceeds the largest
finite float64), for `d > 0`. -/
def nearest64 (neg : Bool) (n d : Nat) : Float64 :=
  if n = 0 then .finite neg 0 (-1074)
  else
    let e : Int := max (floorLog2 n d - 52) (-1074)
    let m := scaled n d e
    if m = 2 ^ 53 then (if 971 < e + 1 then .inf neg else .finite neg (2 ^ 52) (e + 1))
    else if 971 < e then .inf neg else .finite neg m e

/-- The digits before and after the point of an unsigned decimal numeral, as
the scanner of ParseFloat reads them: a run of digits, then optionally a point
and a run of digits; `none` when no digit was read or text is left over. -/
def readDigits (body : Line) : Option (Line × Line) :=
  let ip := body.takeWhile isDigit
  let r1 := body.dropWhile isDigit
  let fp := if r1.head? == some '.' then (r1.drop 1).takeWhile isDigit else []
  let r2 := if r1.head? == some '.' then (r1.drop 1).dropWhile isDigit else r1
  if (ip ++ fp).isEmpty || !r2.isEmpty then none else some (ip, fp)

/-- The sign and the digits of a decimal numeral as ParseFloat reads them;
`none` is a syntax error. -/
def readDecimal (s : Line) : Option (Bool × Line × Line) :=
  let neg := s.head? == some '-'
  let body := if s.head? == some '-' || s.head? == some '+' then s.drop 1 else s
  match readDigits body with
  | some (ip, fp) => some (neg, ip, fp)
  | none => none

/-- Go `strconv.ParseFloat(s, 64)` with the error result dropped, for
arguments without exponent part, hexadecimal prefix, underscore or the words
inf and nan (the capture groups `[0-9\.]+` and `[0-9\.-]+` hold none of
these): the float64 nearest to the decimal value, infinity on a range error,
+0 on a syntax error. -/
def ParseFloat (s : Line) : Float64 :=
  match readDecimal s with
  | some (neg, ip, fp) => nearest64 neg (decimal (ip ++ fp)) (10 ^ fp.length)
  | none => Float64.zero

/-- The once-guarded closure installed by AfterApply (main.go 109-120), called
as `c.cleanup()`.  `none` is a panic (call of a nil func, or the type assertion
on an empty `atomic.Value`). -/
def cleanup {O F : Type} (c : State O F) : Option (State O F) :=
  match c.cleanup with
  | none => none
  | some true => some { c with trace := c.trace ++ [Effect.cleanupCall] }
  | some false =>
    match c.activeOutputters with
    | none => none
    | some r =>
      some { c with
        cleanup := some true
        trace := c.trace ++ [Effect.cleanupCall, Effect.cancel]
          ++ (c.heap r).map (fun e => Effect.close e.1 e.2)
          ++ (if c.portOpen then [Effect.write (CommandSTP ++ crlf)] else []) }

/-- What the body of the loop of readDevice does with one line. -/
inductive Step (F : Type) where
  /-- The line matched: the Sample sent on `c.rchan`; the loop continues. -/
  | emit (d : Data F)
  /-- Go `return nil` on the stop echo. -/
  | stop
  /-- Go `slog.Warn("Read unmatched string")`; the loop continues. -/
  | unmatched
  /-- Go `text[:6]` on a line shorter than six bytes. -/
  | panic
  deriving DecidableEq, Repr

/-- The body of the loop of readDevice (main.go 210-222) on the line `text`,
read at clock reading `now`.  The argument `parseFloat` is the call
`strconv.ParseFloat(s, 64)` with the error result dropped; the program is the
instance with `ParseFloat`. -/
def readLine {F : Type} (parseFloat : Line → F) (tags : List String) (now : Nat)
    (text : Line) : Step F :=
  match findFirst text with
  | some (g1, g2, g3) =>
    .emit { Timestamp := now, Tags := tags, CO2 := parseInt g1,
            Humidity := parseFloat g2, Temperature := parseFloat g3 }
  | none =>
    match sliceTo text 6 with
    | none => .panic
    | some p => if p = "OK STP".toList then .stop else .unmatched

/-- The loop of readDevice over the lines the scanner delivers, followed by the
check of `c.scanner.Err()` (main.go 209-229).  `now i` is `time.Now()` at the
`i`-th line, `scanErr` the value of `c.scanner.Err()` once `Scan` returned
false. -/
def readLoop {O F : Type} (parseFloat : Line → F) (now : Nat → Nat)
    (scanErr : Option Nat) : Nat → List Line → State O F → State O F × Outcome
  | _, [], c =>
    match scanErr with
    | some e =>
      match cleanup { c with scanner := [] } with
      | some c1 => (c1, .returned (some (.external e)))
      | none => ({ c with scanner := [] }, .panicked)
    | none => ({ c with scanner := [] }, .returned none)
  | i, text :: rest, c =>
    match readLine parseFloat c.Tags (now i) text with
    | .emit d =>
      readLoop parseFloat now scanErr (i + 1) rest
        { c with scanner := rest, trace := c.trace ++ [Effect.send d] }
    | .stop => ({ c with scanner := rest }, .returned none)
    | .unmatched => readLoop parseFloat now scanErr (i + 1) rest { c with scanner := rest }
    | .panic => ({ c with scanner := rest }, .panicked)

/-- The function `readDevice` of main.go (206-230). -/
def readDevice {O F : Type} (parseFloat : Line → F) (now : Nat → Nat)
    (scanErr : Option Nat) (c : State O F) : State O F × Outcome :=
  readLoop parseFloat now scanErr 0 c.scanner c

/-! ## dispatch -/

/-- What a `select` of dispatch receives. -/
inductive Event (F : Type) where
  /-- A name received from `c.dechan`. -/
  | deactivate (name : String)
  /-- A Sample received from `c.rchan`. -/
  | data (d : Data F)
  /-- Channel `c.rchan` was closed (`more == false`). -/
  | closed
  deriving DecidableEq, Repr

/-- State of the loop of dispatch after an iteration. -/
inductive Loop where
  /-- The loop goes on with the next `select`. -/
  | running
  /-- Go `return`. -/
  | returned
  /-- Run-time panic. -/
  | panicked
  deriving DecidableEq, Repr

/-- One iteration of the loop of dispatch (main.go 234-252). -/
def dispatchStep {O F : Type} (c : State O F) : Event F → State O F × Loop
  | .deactivate name =>
    match c.activeOutputters with
    | none => (c, .panicked)
    | some a =>
      let c1 := { c with heap := Function.update c.heap a ((c.heap a).delete name) }
      if (c1.heap a).length = 0 then
        match cleanup c1 with
        | some c2 => (c2, .returned)
        | none => (c1, .panicked)
      else ({ c1 with activeOutputters := some a }, .running)
  | .data d =>
    match c.activeOutputters with
    | none => (c, .panicked)
    | some a =>
      ({ c with trace := c.trace ++ (c.heap a).map (fun e => Effect.output e.1 e.2 d) },
        .running)
  | .closed => (c, .returned)

/-- The function `dispatch` of main.go (232-254) on the events its `select`
statements receive, in the order they are received.  The result carries the
events that were not received: with `Loop.running` the list is empty and the
loop blocks in `select`. -/
def dispatch {O F : Type} : List (Event F) → State O F → State O F × Loop × List (Event F)
  | [], c => (c, .running, [])
  | ev :: evs, c =>
    match dispatchStep c ev with
    | (c1, .running) => dispatch evs c1
    | (c1, l) => (c1, l, evs)

/-! ## AfterApply -/

/-- The loop `for _, name := range opts.Output` of AfterApply (main.go 95-103)
from position `i` on, with the local map `a`.  `initErr i` is the error result
of the call of Initialize made for the name at position `i`. -/
def initLoop {O F : Type} (outputters : GoMap O) (initErr : Nat → Option Nat) :
    Nat → List String → GoMap O → List (Effect O F) → GoMap O × List (Effect O F)
  | _, [], a, t => (a, t)
  | i, name :: rest, a, t =>
    match outputters.get name with
    | some o =>
      match initErr i with
      | some _ => initLoop outputters initErr (i + 1) rest a (t ++ [Effect.init name o])
      | none =>
        initLoop outputters initErr (i + 1) rest (a.set name o) (t ++ [Effect.init name o])
    | none => initLoop outputters initErr (i + 1) rest a t

/-- The function `AfterApply` of main.go (76-123), from the filtering of the
outputters on; `output` is `opts.Output`.  The local map becomes a map object
of the heap when it is stored. -/
def AfterApply {O F : Type} (initErr : Nat → Option Nat) (output : List String)
    (c : State O F) : State O F × Option Err :=
  let r := initLoop c.outputters initErr 0 output [] c.trace
  if r.1.length = 0 then
    ({ c with trace := r.2 }, some .noActiveOutputters)
  else
    ({ c with
        trace := r.2
        heap := Function.update c.heap c.next r.1
        next := c.next + 1
        activeOutputters := some c.next
        cleanup := some false }, none)

/-! ## Notions used in the statements -/

/-- A line that the inner loop of prepareDevice ignores without a panic: at
least two bytes, beginning with neither OK nor NG. -/
def Ignored (l : Line) : Prop :=
  2 ≤ l.length ∧ ¬ ResponseOK <+: l ∧ ¬ ResponseNG <+: l

/-- The lines a device sends in answer to successive commands: for each
command the ignored lines and then the response line. -/
def answers : List (List Line × Line) → List Line
  | [] => []
  | a :: rest => a.1 ++ a.2 :: answers rest

/-- A match of the telemetry pattern starts at the first byte of `s`, with
capture groups `g1`, `g2`, `g3` and `post` the text after the match; the last
group is as long as possible. -/
def MatchAt (s g1 g2 g3 post : Line) : Prop :=
  s = "CO2=".toList ++ g1 ++ ",HUM=".toList ++ g2 ++ ",TMP=".toList ++ g3 ++ post ∧
    (g1 ≠ [] ∧ ∀ ch ∈ g1, isDigit ch = true) ∧
    (g2 ≠ [] ∧ ∀ ch ∈ g2, isHumChar ch = true) ∧
    (g3 ≠ [] ∧ ∀ ch ∈ g3, isTmpChar ch = true) ∧
    ∀ ch ∈ post.head?, isTmpChar ch = false

/-- Some match of the telemetry pattern (greedy or not) starts at the first
byte of `s`. -/
def StartsMatch (s : Line) : Prop :=
  ∃ a b c rest,
    s = "CO2=".toList ++ a ++ ",HUM=".toList ++ b ++ ",TMP=".toList ++ c ++ rest ∧
    (a ≠ [] ∧ ∀ ch ∈ a, isDigit ch = true) ∧
    (b ≠ [] ∧ ∀ ch ∈ b, isHumChar ch = true) ∧
    (c ≠ [] ∧ ∀ ch ∈ c, isTmpChar ch = true)

/-- The text `g` is a decimal numeral: an optional minus sign, then digits
with at most one point, at least one digit in all; `ip` and `fp` are the
digits before and after the point, so that the value of the numeral is
`decimal (ip ++ fp) / 10 ^ fp.length`, negated when `neg`. -/
def IsDecimal (g : Line) (neg : Bool) (ip fp : Line) : Prop :=
  (∀ ch ∈ ip, isDigit ch = true) ∧ (∀ ch ∈ fp, isDigit ch = true) ∧ ip ++ fp ≠ [] ∧
    (g = (if neg then ['-'] else []) ++ ip ++ '.' :: fp ∨
      (fp = [] ∧ g = (if neg then ['-'] else []) ++ ip))

/-- A state as Run has it when it calls prepareDevice: outputters stdout
(handle 1) and prometheus (handle 3) active in the map at address 0, the port
open, the cleanup closure installed.  The float type is represented by the
text handed to ParseFloat. -/
def demo : State Nat Line :=
  { Tags := ["room"]
    outputters := [("stdout", 1), ("mqtt", 2), ("prometheus", 3)]
    heap := fun a => if a = 0 then [("stdout", 1), ("prometheus", 3)] else []
    next := 1
    activeOutputters := some 0
    portOpen := true
    scanner := []
    cleanup := some false
    trace := [] }

/-- The state `demo` with Samples that carry float64 values. -/
def demo64 : State Nat Float64 :=
  { Tags := ["room"]
    outputters := [("stdout", 1), ("mqtt", 2), ("prometheus", 3)]
    heap := fun a => if a = 0 then [("stdout", 1), ("prometheus", 3)] else []
    next := 1
    activeOutputters := some 0
    portOpen := true
    scanner := []
    cleanup := some false
    trace := [] }

/-- The Output calls that deliver the Samples `ds`, in order, to the entries
of the map `A`: one call per Sample and entry. -/
def fanOut {O F : Type} (A : GoMap O) : List (Data F) → List (Effect O F)
  | [] => []
  | d :: ds => A.map (fun e => Effect.output e.1 e.2 d) ++ fanOut A ds

/-- Number of invocations of `c.cleanup()` on a trace. -/
def cleanupCalls {O F : Type} (t : List (Effect O F)) : Nat :=
  t.countP (fun e => match e with
    | .cleanupCall => true
    | _ => false)

/-- The release steps of the shutdown sequence for the active map `A`: cancel,
Close of every entry, and the STP command when the port is open. -/
def releaseSteps {O F : Type} (A : GoMap O) (portOpen : Bool) : List (Effect O F) :=
  [Effect.cancel] ++ A.map (fun e => Effect.close e.1 e.2)
    ++ (if portOpen then [Effect.write (CommandSTP ++ crlf)] else [])

/-- The release steps on a trace: the calls of cancel and of Close and the
writes to the port. -/
def releasesOf {O F : Type} (t : List (Effect O F)) : List (Effect O F) :=
  t.filter (fun e => match e with
    | .cancel => true
    | .close _ _ => true
    | .write _ => true
    | _ => false)

/-- The Sample used in the examples. -/
def sample : Data Line :=
  { Timestamp := 0, CO2 := 400, Humidity := "40.0".toList, Temperature := "20.0".toList,
    Tags := ["room"] }

/-- The function `c.cleanup` invoked `m` times in a row. -/
def cleanupTimes {O F : Type} : Nat → State O F → Option (State O F)
  | 0, c => some c
  | m + 1, c => (cleanup c).bind (cleanupTimes m)

/-- The calls of Initialize that AfterApply makes for the configured names:
one for each configured name that is a key of the registry, in order. -/
def initCalls {O F : Type} (outputters : GoMap O) (output : List String) :
    List (Effect O F) :=
  output.filterMap (fun name => (outputters.get name).map (Effect.init name))

/-! # Theorems -/

/-! ## Facts about prepareDevice -/

theorem awaitResponse_ok (r : Line) (rest : List Line) (h : ResponseOK <+: r) :
    awaitResponse (r :: rest) = .ok rest := by
  obtain ⟨t, rfl⟩ := h
  simp [awaitResponse, sliceTo, ResponseOK, hasPrefix]

theorem awaitResponse_ng (r : Line) (rest : List Line) (h : ResponseNG <+: r) :
    awaitResponse (r :: rest) = .ng rest := by
  obtain ⟨t, rfl⟩ := h
  simp [awaitResponse, sliceTo, ResponseOK, ResponseNG, hasPrefix]

theorem awaitResponse_ignored (l : Line) (rest : List Line) (h : Ignored l) :
    awaitResponse (l :: rest) = awaitResponse rest := by
  obtain ⟨hlen, hok, hng⟩ := h
  match l, hlen with
  | a :: b :: t, _ =>
    have h1 : ¬ ('O' = a ∧ 'K' = b) := by
      rintro ⟨rfl, rfl⟩
      exact hok ⟨t, rfl⟩
    have h2 : ¬ ('N' = a ∧ 'G' = b) := by
      rintro ⟨rfl, rfl⟩
      exact hng ⟨t, rfl⟩
    simp [awaitResponse, sliceTo, ResponseOK, ResponseNG, hasPrefix, h1, h2]

theorem awaitResponse_noise (noise : List Line) (rest : List Line)
    (h : ∀ l ∈ noise, Ignored l) :
    awaitResponse (noise ++ rest) = awaitResponse rest := by
  induction noise with
  | nil => rfl
  | cons l ls ih =>
    rw [List.cons_append, awaitResponse_ignored l _ (h l (List.mem_cons_self _ _))]
    exact ih (fun x hx => h x (List.mem_cons_of_mem _ hx))

theorem prepareLoop_oks {O F : Type} (writeErr : Nat → Option Nat)
    (hw : ∀ i, writeErr i = none) (oks : List (List Line × Line))
    (hoks : ∀ a ∈ oks, (∀ l ∈ a.1, Ignored l) ∧ ResponseOK <+: a.2) :
    ∀ (i : Nat) (cmds : List Line) (c : State O F) (tail : List Line),
      c.portOpen = true → oks.length ≤ cmds.length → c.scanner = answers oks ++ tail →
      prepareLoop writeErr i cmds c =
        prepareLoop writeErr (i + oks.length) (cmds.drop oks.length)
          { c with
            trace := c.trace ++ (cmds.take oks.length).map (fun cmd => Effect.write (cmd ++ crlf))
            scanner := tail } := by
  induction oks with
  | nil =>
    intro i cmds c tail _ _ hs
    cases c
    simp_all [answers]
  | cons a rest ih =>
    intro i cmds c tail hp hlen hs
    match cmds, hlen with
    | cmd :: cmds, hlen =>
      have ha := hoks a (List.mem_cons_self _ _)
      have hrest : ∀ b ∈ rest, (∀ l ∈ b.1, Ignored l) ∧ ResponseOK <+: b.2 :=
        fun b hb => hoks b (List.mem_cons_of_mem _ hb)
      have hwait : awaitResponse c.scanner = .ok (answers rest ++ tail) := by
        rw [hs]
        simp only [answers, List.append_assoc, List.cons_append]
        rw [awaitResponse_noise _ _ ha.1, awaitResponse_ok _ _ ha.2]
      rw [prepareLoop]
      simp only [hp, if_true, hw, hwait]
      rw [ih hrest (i + 1) cmds
        { c with portOpen := true, scanner := answers rest ++ tail,
                 trace := c.trace ++ [Effect.write (cmd ++ crlf)] } tail rfl
        (by simpa using hlen) rfl]
      simp [Nat.add_assoc, Nat.add_comm 1]

theorem answers_append (xs ys : List (List Line × Line)) :
    answers (xs ++ ys) = answers xs ++ answers ys := by
  induction xs with
  | nil => rfl
  | cons a rest ih => simp [answers, ih]

theorem prepareLoop_ng {O F : Type} (writeErr : Nat → Option Nat)
    (hw : ∀ i, writeErr i = none) (i : Nat) (cmd : Line) (cmds : List Line)
    (c : State O F) (a : List Line × Line) (tail : List Line)
    (hp : c.portOpen = true) (ha : (∀ l ∈ a.1, Ignored l) ∧ ResponseNG <+: a.2)
    (hs : c.scanner = a.1 ++ a.2 :: tail) :
    prepareLoop writeErr i (cmd :: cmds) c =
      ({ c with trace := c.trace ++ [Effect.write (cmd ++ crlf)], scanner := tail },
        .returned (some (.commandFailed cmd))) := by
  have hwait : awaitResponse c.scanner = .ng tail := by
    rw [hs, awaitResponse_noise _ _ ha.1, awaitResponse_ng _ _ ha.2]
  rw [prepareLoop]
  simp only [hp, if_true, hw, hwait]

/-- C1: when every write succeeds and every command sent is answered, after
ignored lines of at least two bytes, by a line beginning with OK or NG (`oks`
are the answers with OK, `final` the answer with NG if there is one),
prepareDevice writes the commands STP, ID?, STA in order, one per answer, and
none after the answer with NG; it returns nil exactly when there is no answer
with NG (three writes), and otherwise returns the error naming the command
that was answered with NG, which is the last one written. -/
theorem prepareDevice_answered {O F : Type} (writeErr : Nat → Option Nat)
    (hw : ∀ i, writeErr i = none) (c : State O F) (hp : c.portOpen = true)
    (oks : List (List Line × Line)) (final : Option (List Line × Line))
    (tail : List Line)
    (hoks : ∀ a ∈ oks, (∀ l ∈ a.1, Ignored l) ∧ ResponseOK <+: a.2)
    (hfinal : ∀ a ∈ final, (∀ l ∈ a.1, Ignored l) ∧ ResponseNG <+: a.2)
    (hcount : (final = none ∧ oks.length = 3) ∨ (final ≠ none ∧ oks.length < 3))
    (hs : c.scanner = answers (oks ++ final.toList) ++ tail) :
    (prepareDevice writeErr c).1.trace =
        c.trace ++ (commands.take (oks.length + final.toList.length)).map
          (fun cmd => Effect.write (cmd ++ crlf)) ∧
      (prepareDevice writeErr c).1.scanner = tail ∧
      ((prepareDevice writeErr c).2 = .returned none ↔ final = none ∧ oks.length = 3) ∧
      (∀ a ∈ final, ∃ cmd, commands[oks.length]? = some cmd ∧
        (prepareDevice writeErr c).2 = .returned (some (.commandFailed cmd))) := by
  have hlen : oks.length ≤ commands.length := by
    rcases hcount with ⟨_, h⟩ | ⟨_, h⟩ <;> simp [commands] <;> omega
  have hs2 : c.scanner = answers oks ++ (answers final.toList ++ tail) := by
    rw [hs, answers_append, List.append_assoc]
  have hstep := prepareLoop_oks writeErr hw oks hoks 0 commands c _ hp hlen hs2
  unfold prepareDevice
  rw [hstep]
  cases final with
  | none =>
    have h3 : oks.length = 3 := by
      rcases hcount with ⟨_, h⟩ | ⟨h, _⟩
      · exact h
      · exact absurd rfl h
    simp [h3, commands, prepareLoop, answers]
  | some a =>
    have h3 : oks.length < 3 := by
      rcases hcount with ⟨h, _⟩ | ⟨_, h⟩
      · cases h
      · exact h
    have ha := hfinal a rfl
    have hn : oks.length = 0 ∨ oks.length = 1 ∨ oks.length = 2 := by omega
    rcases hn with hn | hn | hn
    all_goals
      simp only [hn, commands, List.drop, List.take]
      rw [prepareLoop_ng writeErr hw _ _ _ _ a tail ?_ ha ?_]
      · simp [commands]
      · exact hp
      · simp [answers]

/-- Witness of C1: two commands answered with OK (the first after a line of
chatter), the third with NG. -/
theorem prepareDevice_answered_witness :
    (prepareDevice (fun _ => none)
        { demo with scanner := ["UD-CO2S".toList, "OK STP".toList, "OK ID".toList,
                                "NG STA".toList, "later".toList] }).1.trace =
        [Effect.write "STP\r\n".toList, Effect.write "ID?\r\n".toList,
         Effect.write "STA\r\n".toList] ∧
      (prepareDevice (fun _ => none)
        { demo with scanner := ["UD-CO2S".toList, "OK STP".toList, "OK ID".toList,
                                "NG STA".toList, "later".toList] }).1.scanner =
        ["later".toList] ∧
      ∃ cmd, commands[2]? = some cmd ∧
        (prepareDevice (fun _ => none)
          { demo with scanner := ["UD-CO2S".toList, "OK STP".toList, "OK ID".toList,
                                  "NG STA".toList, "later".toList] }).2 =
          .returned (some (.commandFailed cmd)) :=
  have h := prepareDevice_answered (fun _ => none) (fun _ => rfl)
    { demo with scanner := ["UD-CO2S".toList, "OK STP".toList, "OK ID".toList,
                            "NG STA".toList, "later".toList] } rfl
    [(["UD-CO2S".toList], "OK STP".toList), ([], "OK ID".toList)]
    (some ([], "NG STA".toList)) ["later".toList]
    (by unfold Ignored; decide) (by unfold Ignored; decide) (by decide) rfl
  ⟨h.1, h.2.1, h.2.2.2 _ rfl⟩

/-- C7 (the code at the failing input): when `Scan` returns false at once
(read timeout, read error or end of input, no line was read), prepareDevice
still writes all three commands and returns nil; the same when the input ends
while the answer to the second command is awaited. -/
theorem prepareDevice_scan_false :
    (prepareDevice (fun _ => none) { demo with scanner := [] }).2 = .returned none ∧
      (prepareDevice (fun _ => none) { demo with scanner := [] }).1.trace =
        [Effect.write "STP\r\n".toList, Effect.write "ID?\r\n".toList,
         Effect.write "STA\r\n".toList] ∧
      (prepareDevice (fun _ => none)
          { demo with scanner := ["OK STP".toList, "chatter".toList] }).2 = .returned none ∧
      (prepareDevice (fun _ => none)
          { demo with scanner := ["OK STP".toList, "chatter".toList] }).1.trace =
        [Effect.write "STP\r\n".toList, Effect.write "ID?\r\n".toList,
         Effect.write "STA\r\n".toList] := by
  decide

/-! ## Facts about the telemetry pattern -/

theorem matchLit_eq_some (lit s r : Line) : matchLit lit s = some r ↔ s = lit ++ r := by
  unfold matchLit
  constructor
  · intro h
    split at h
    · rename_i hp
      rw [List.isPrefixOf_iff_prefix] at hp
      obtain ⟨t, rfl⟩ := hp
      simp at h
      rw [h]
    · cases h
  · rintro rfl
    simp

theorem matchLit_append (lit r : Line) : matchLit lit (lit ++ r) = some r :=
  (matchLit_eq_some lit _ r).2 rfl

theorem takeWhile_run (cls : Char → Bool) (g rest : Line) (hg : ∀ ch ∈ g, cls ch = true) :
    (g ++ rest).takeWhile cls = g ++ rest.takeWhile cls ∧
      (g ++ rest).dropWhile cls = rest.dropWhile cls := by
  induction g with
  | nil => simp
  | cons ch t ih =>
    have h1 := hg ch (List.mem_cons_self _ _)
    have h2 := ih (fun x hx => hg x (List.mem_cons_of_mem _ hx))
    simp [List.takeWhile, List.dropWhile, h1, h2.1, h2.2]

theorem takeWhile_stop (cls : Char → Bool) (rest : Line)
    (h : ∀ ch ∈ rest.head?, cls ch = false) :
    rest.takeWhile cls = [] ∧ rest.dropWhile cls = rest := by
  cases rest with
  | nil => simp
  | cons ch t =>
    have h1 := h ch (by simp)
    simp [List.takeWhile, List.dropWhile, h1]

theorem matchPlus_run (cls : Char → Bool) (g rest : Line) (hne : g ≠ [])
    (hg : ∀ ch ∈ g, cls ch = true) :
    matchPlus cls (g ++ rest) = some (g ++ rest.takeWhile cls, rest.dropWhile cls) := by
  unfold matchPlus
  obtain ⟨h1, h2⟩ := takeWhile_run cls g rest hg
  rw [h1, h2]
  cases g with
  | nil => exact absurd rfl hne
  | cons ch t => simp

theorem matchPlus_exact (cls : Char → Bool) (g rest : Line) (hne : g ≠ [])
    (hg : ∀ ch ∈ g, cls ch = true) (h : ∀ ch ∈ rest.head?, cls ch = false) :
    matchPlus cls (g ++ rest) = some (g, rest) := by
  rw [matchPlus_run cls g rest hne hg]
  obtain ⟨h1, h2⟩ := takeWhile_stop cls rest h
  rw [h1, h2, List.append_nil]

theorem dropWhile_head (cls : Char → Bool) (s : Line) :
    ∀ ch ∈ (s.dropWhile cls).head?, cls ch = false := by
  induction s with
  | nil => simp
  | cons x t ih =>
    by_cases hx : cls x = true
    · simpa [List.dropWhile, hx] using ih
    · simp [List.dropWhile, hx]

theorem matchPlus_eq_some (cls : Char → Bool) (s g r : Line)
    (h : matchPlus cls s = some (g, r)) :
    s = g ++ r ∧ g ≠ [] ∧ (∀ ch ∈ g, cls ch = true) ∧ ∀ ch ∈ r.head?, cls ch = false := by
  unfold matchPlus at h
  split at h
  · cases h
  · rename_i hne
    simp only [Option.some.injEq, Prod.mk.injEq] at h
    obtain ⟨rfl, rfl⟩ := h
    refine ⟨(List.takeWhile_append_dropWhile cls s).symm, ?_, ?_, dropWhile_head cls s⟩
    · intro h0
      simp [h0] at hne
    · intro ch hch
      exact List.mem_takeWhile_imp hch

theorem matchAt_parts (a b c rest : Line)
    (ha : a ≠ [] ∧ ∀ ch ∈ a, isDigit ch = true)
    (hb : b ≠ [] ∧ ∀ ch ∈ b, isHumChar ch = true)
    (hc : c ≠ [] ∧ ∀ ch ∈ c, isTmpChar ch = true) :
    matchAt ("CO2=".toList ++ a ++ ",HUM=".toList ++ b ++ ",TMP=".toList ++ c ++ rest) =
      some (a, b, c ++ rest.takeWhile isTmpChar) := by
  have e1 : matchPlus isDigit (a ++ (",HUM=".toList ++ (b ++ (",TMP=".toList ++ (c ++ rest))))) =
      some (a, ",HUM=".toList ++ (b ++ (",TMP=".toList ++ (c ++ rest)))) :=
    matchPlus_exact _ _ _ ha.1 ha.2 (by intro ch hch; cases hch; decide)
  have e2 : matchPlus isHumChar (b ++ (",TMP=".toList ++ (c ++ rest))) =
      some (b, ",TMP=".toList ++ (c ++ rest)) :=
    matchPlus_exact _ _ _ hb.1 hb.2 (by intro ch hch; cases hch; decide)
  have e3 := matchPlus_run isTmpChar c rest hc.1 hc.2
  simp only [matchAt, List.append_assoc, matchLit_append, e1, e2, e3]

theorem matchAt_of_starts (s : Line) (h : StartsMatch s) : matchAt s ≠ none := by
  obtain ⟨a, b, c, rest, rfl, ha, hb, hc⟩ := h
  rw [matchAt_parts a b c rest ha hb hc]
  simp

theorem matchAt_eq_some (s g1 g2 g3 : Line) (h : matchAt s = some (g1, g2, g3)) :
    ∃ post, MatchAt s g1 g2 g3 post := by
  unfold matchAt at h
  split at h
  · cases h
  · rename_i s1 h1
    split at h
    · cases h
    · rename_i a s2 h2
      split at h
      · cases h
      · rename_i s3 h3
        split at h
        · cases h
        · rename_i b s4 h4
          split at h
          · cases h
          · rename_i s5 h5
            split at h
            · cases h
            · rename_i c s6 h6
              simp only [Option.some.injEq, Prod.mk.injEq] at h
              obtain ⟨rfl, rfl, rfl⟩ := h
              rw [matchLit_eq_some] at h1 h3 h5
              obtain ⟨e2, n2, c2, _⟩ := matchPlus_eq_some _ _ _ _ h2
              obtain ⟨e4, n4, c4, _⟩ := matchPlus_eq_some _ _ _ _ h4
              obtain ⟨e6, n6, c6, t6⟩ := matchPlus_eq_some _ _ _ _ h6
              refine ⟨s6, ?_, ⟨n2, c2⟩, ⟨n4, c4⟩, ⟨n6, c6⟩, t6⟩
              rw [h1, e2, h3, e4, h5, e6]
              simp only [List.append_assoc]

/-- The leftmost match: `findFirst` returns the groups of a greedy match that
starts after a prefix `pre` inside which no match starts. -/
theorem findFirst_eq_some (s g1 g2 g3 : Line) (h : findFirst s = some (g1, g2, g3)) :
    ∃ pre body post, s = pre ++ body ∧ MatchAt body g1 g2 g3 post ∧
      ∀ k < pre.length, ¬ StartsMatch (s.drop k) := by
  induction s with
  | nil =>
    obtain ⟨post, hm⟩ := matchAt_eq_some _ _ _ _ (by simpa [findFirst] using h)
    exact ⟨[], [], post, rfl, hm, by simp⟩
  | cons ch t ih =>
    rw [findFirst] at h
    split at h
    · rename_i m hm
      cases h
      obtain ⟨post, hp⟩ := matchAt_eq_some _ _ _ _ hm
      exact ⟨[], ch :: t, post, rfl, hp, by simp⟩
    · rename_i hnone
      obtain ⟨pre, body, post, hs, hm, hleft⟩ := ih h
      refine ⟨ch :: pre, body, post, by rw [hs]; rfl, hm, ?_⟩
      intro k hk
      cases k with
      | zero =>
        intro hst
        exact matchAt_of_starts _ hst hnone
      | succ k =>
        simpa using hleft k (by simpa using hk)

theorem findFirst_of_starts (s : Line) (k : Nat) (h : StartsMatch (s.drop k)) :
    findFirst s ≠ none := by
  induction s generalizing k with
  | nil =>
    have : StartsMatch [] := by simpa using h
    simpa [findFirst] using matchAt_of_starts _ this
  | cons ch t ih =>
    rw [findFirst]
    split
    · simp
    · cases k with
      | zero =>
        rename_i hnone
        exact absurd hnone (matchAt_of_starts _ (by simpa using h))
      | succ k => exact ih k (by simpa using h)

theorem findFirst_leftmost (pre body g1 g2 g3 post : Line)
    (hm : MatchAt body g1 g2 g3 post)
    (hleft : ∀ k < pre.length, ¬ StartsMatch ((pre ++ body).drop k)) :
    findFirst (pre ++ body) = some (g1, g2, g3) := by
  have hbody : matchAt body = some (g1, g2, g3) := by
    obtain ⟨rfl, h1, h2, h3, hmax⟩ := hm
    rw [matchAt_parts g1 g2 g3 post h1 h2 h3, (takeWhile_stop _ post hmax).1, List.append_nil]
  induction pre with
  | nil =>
    cases body with
    | nil => simpa [findFirst] using hbody
    | cons ch t => simp [findFirst, hbody]
  | cons ch t ih =>
    have h0 : matchAt (ch :: (t ++ body)) = none := by
      cases hq : matchAt (ch :: (t ++ body)) with
      | none => rfl
      | some m =>
        obtain ⟨a, b, c⟩ := m
        obtain ⟨post2, e, ha, hb, hc, _⟩ := matchAt_eq_some _ _ _ _ hq
        exact absurd (show StartsMatch (ch :: (t ++ body)) from ⟨a, b, c, post2, e, ha, hb, hc⟩)
          (by simpa using hleft 0 (by simp))
    rw [List.cons_append, findFirst, h0]
    exact ih (fun k hk => by simpa using hleft (k + 1) (by simpa using hk))

theorem findFirst_eq_none (s : Line) (h : ∀ k, ¬ StartsMatch (s.drop k)) :
    findFirst s = none := by
  cases hq : findFirst s with
  | none => rfl
  | some m =>
    obtain ⟨g1, g2, g3⟩ := m
    obtain ⟨pre, body, post, hs, ⟨e, ha, hb, hc, _⟩, _⟩ := findFirst_eq_some s g1 g2 g3 hq
    refine absurd (show StartsMatch (s.drop pre.length) from
      ⟨g1, g2, g3, post, ?_, ha, hb, hc⟩) (h pre.length)
    rw [hs, List.drop_left, e]

theorem isDigit_not_sign (ch : Char) (h : isDigit ch = true) : ch ≠ '-' ∧ ch ≠ '+' := by
  constructor <;> rintro rfl <;> exact absurd h (by decide)

theorem parseInt_digits (g : Line) (hne : g ≠ []) (hg : ∀ ch ∈ g, isDigit ch = true) :
    parseInt g = min (decimal g : Int) (2 ^ 63 - 1) := by
  cases g with
  | nil => exact absurd rfl hne
  | cons ch t =>
    obtain ⟨hm, hp⟩ := isDigit_not_sign ch (hg ch (List.mem_cons_self _ _))
    have hall : (ch :: t).all isDigit = true := by
      rw [List.all_eq_true]
      exact hg
    have h1 : ((ch :: t).head? == some '-') = false := by simpa using hm
    have h2 : ((ch :: t).head? == some '+') = false := by simpa using hp
    simp only [parseInt, h1, h2, hall, Bool.or_self, Bool.false_eq_true, if_false,
      List.isEmpty_cons, Bool.not_true]
    split
    · rename_i hbig
      rw [min_eq_right]
      have : (2 : Int) ^ 63 ≤ (decimal (ch :: t) : Int) := by exact_mod_cast hbig
      omega
    · rename_i hsmall
      rw [min_eq_left]
      have : (decimal (ch :: t) : Int) < (2 : Int) ^ 63 := by exact_mod_cast (not_le.mp hsmall)
      omega

theorem isDigit_not_point (ch : Char) (h : isDigit ch = true) : ch ≠ '.' := by
  rintro rfl
  exact absurd h (by decide)

theorem takeWhile_digits (ip tl : Line) (hip : ∀ ch ∈ ip, isDigit ch = true)
    (htl : ∀ ch ∈ tl.head?, isDigit ch = false) :
    (ip ++ tl).takeWhile isDigit = ip ∧ (ip ++ tl).dropWhile isDigit = tl := by
  obtain ⟨h1, h2⟩ := takeWhile_run isDigit ip tl hip
  obtain ⟨h3, h4⟩ := takeWhile_stop isDigit tl htl
  rw [h1, h2, h3, h4, List.append_nil]
  exact ⟨rfl, rfl⟩

theorem readDigits_point (ip fp : Line) (hip : ∀ ch ∈ ip, isDigit ch = true)
    (hfp : ∀ ch ∈ fp, isDigit ch = true) (hne : ip ++ fp ≠ []) :
    readDigits (ip ++ '.' :: fp) = some (ip, fp) := by
  obtain ⟨h1, h2⟩ := takeWhile_digits ip ('.' :: fp) hip (by intro ch hch; cases hch; decide)
  obtain ⟨h3, h4⟩ := takeWhile_digits fp [] hfp (by simp)
  rw [List.append_nil] at h3 h4
  have hne2 : (ip ++ fp).isEmpty = false := by
    cases hq : ip ++ fp with
    | nil => exact absurd hq hne
    | cons x t => rfl
  simp only [readDigits, h1, h2, List.head?_cons, beq_self_eq_true, if_true, List.drop_one,
    List.tail_cons, h3, h4, hne2, List.isEmpty_nil, Bool.not_true, Bool.or_self,
    Bool.false_eq_true, if_false]

theorem readDigits_whole (ip : Line) (hip : ∀ ch ∈ ip, isDigit ch = true) (hne : ip ≠ []) :
    readDigits ip = some (ip, []) := by
  obtain ⟨h1, h2⟩ := takeWhile_digits ip [] hip (by simp)
  rw [List.append_nil] at h1 h2
  have hne2 : ip.isEmpty = false := by
    cases ip with
    | nil => exact absurd rfl hne
    | cons x t => rfl
  simp [readDigits, h1, h2, hne2]

theorem readDigits_eq_some (body ip fp : Line) (h : readDigits body = some (ip, fp)) :
    (∀ ch ∈ ip, isDigit ch = true) ∧ (∀ ch ∈ fp, isDigit ch = true) ∧ ip ++ fp ≠ [] ∧
      (body = ip ++ '.' :: fp ∨ (fp = [] ∧ body = ip)) := by
  have hsplit := (List.takeWhile_append_dropWhile isDigit body).symm
  unfold readDigits at h
  by_cases hp : (body.dropWhile isDigit).head? = some '.'
  · have hp2 : ((body.dropWhile isDigit).head? == some '.') = true := by simp [hp]
    simp only [hp2, if_true] at h
    split at h
    · cases h
    · rename_i hc
      simp only [Option.some.injEq, Prod.mk.injEq] at h
      obtain ⟨rfl, rfl⟩ := h
      rw [Bool.or_eq_true, not_or] at hc
      obtain ⟨hc1, hc2⟩ := hc
      have hr2 : ((body.dropWhile isDigit).drop 1).dropWhile isDigit = [] := by
        cases hq : ((body.dropWhile isDigit).drop 1).dropWhile isDigit with
        | nil => rfl
        | cons x t => exact absurd (by rw [hq]; rfl) hc2
      have hr1 : body.dropWhile isDigit = '.' :: (body.dropWhile isDigit).drop 1 := by
        cases hq : body.dropWhile isDigit with
        | nil => simp [hq] at hp
        | cons x t =>
          simp only [hq, List.head?_cons, Option.some.injEq] at hp
          simp [hp]
      have hfp := (List.takeWhile_append_dropWhile isDigit
        ((body.dropWhile isDigit).drop 1)).symm
      rw [hr2, List.append_nil] at hfp
      refine ⟨fun ch hch => List.mem_takeWhile_imp hch,
        fun ch hch => List.mem_takeWhile_imp hch, ?_, Or.inl ?_⟩
      · intro h0
        exact hc1 (by rw [h0]; rfl)
      · calc body = body.takeWhile isDigit ++ body.dropWhile isDigit := hsplit
          _ = body.takeWhile isDigit ++ '.' :: (body.dropWhile isDigit).drop 1 := by
            rw [← hr1]
          _ = _ := by rw [← hfp]
  · have hp2 : ((body.dropWhile isDigit).head? == some '.') = false := by simp [hp]
    simp only [hp2, Bool.false_eq_true, if_false] at h
    split at h
    · cases h
    · rename_i hc
      simp only [Option.some.injEq, Prod.mk.injEq] at h
      obtain ⟨rfl, rfl⟩ := h
      rw [Bool.or_eq_true, not_or] at hc
      obtain ⟨hc1, hc2⟩ := hc
      have hr1 : body.dropWhile isDigit = [] := by
        cases hq : body.dropWhile isDigit with
        | nil => rfl
        | cons x t => exact absurd (by rw [hq]; rfl) hc2
      refine ⟨fun ch hch => List.mem_takeWhile_imp hch, by simp, ?_, Or.inr ⟨rfl, ?_⟩⟩
      · intro h0
        exact hc1 (by rw [h0]; rfl)
      · rw [hr1, List.append_nil] at hsplit
        exact hsplit

theorem readDecimal_of_isDecimal (g : Line) (neg : Bool) (ip fp : Line)
    (h : IsDecimal g neg ip fp) : readDecimal g = some (neg, ip, fp) := by
  obtain ⟨hip, hfp, hne, hg⟩ := h
  have hbody : ∀ body : Line, (body = ip ++ '.' :: fp ∨ (fp = [] ∧ body = ip)) →
      readDigits body = some (ip, fp) := by
    intro body hb
    rcases hb with hb | ⟨hf, hb⟩
    · rw [hb]
      exact readDigits_point ip fp hip hfp hne
    · rw [hb, hf]
      exact readDigits_whole ip hip (by simpa [hf] using hne)
  have hhead : ∀ body : Line, (body = ip ++ '.' :: fp ∨ (fp = [] ∧ body = ip)) →
      body.head? ≠ some '-' ∧ body.head? ≠ some '+' := by
    intro body hb
    cases hq : ip with
    | nil =>
      rcases hb with hb | ⟨hf, hb⟩
      · rw [hb, hq]
        simp
      · rw [hq, hf] at hne
        exact absurd rfl hne
    | cons x t =>
      obtain ⟨h1, h2⟩ := isDigit_not_sign x (hip x (by rw [hq]; exact List.mem_cons_self _ _))
      rcases hb with hb | ⟨hf, hb⟩
      · rw [hb, hq]
        simp [h1, h2]
      · rw [hb, hq]
        simp [h1, h2]
  cases neg with
  | true =>
    have hg2 : g.head? = some '-' ∧
        (g.drop 1 = ip ++ '.' :: fp ∨ (fp = [] ∧ g.drop 1 = ip)) := by
      rcases hg with hg | ⟨hf, hg⟩
      · rw [hg]
        exact ⟨by simp, Or.inl (by simp)⟩
      · rw [hg]
        exact ⟨by simp, Or.inr ⟨hf, by simp⟩⟩
    simp only [readDecimal, hg2.1, beq_self_eq_true, Bool.true_or, if_true, hbody _ hg2.2]
  | false =>
    have hg2 : g = ip ++ '.' :: fp ∨ (fp = [] ∧ g = ip) := by
      simpa using hg
    obtain ⟨h1, h2⟩ := hhead g hg2
    have e1 : (g.head? == some '-') = false := by simpa using h1
    have e2 : (g.head? == some '+') = false := by simpa using h2
    simp only [readDecimal, e1, e2, Bool.or_self, Bool.false_eq_true, if_false, hbody _ hg2]

theorem isDecimal_of_readDecimal (g : Line) (neg : Bool) (ip fp : Line)
    (hcls : ∀ ch ∈ g, isTmpChar ch = true) (h : readDecimal g = some (neg, ip, fp)) :
    IsDecimal g neg ip fp := by
  cases hd : readDigits
      (if (g.head? == some '-' || g.head? == some '+') = true then g.drop 1 else g) with
  | none =>
    simp only [readDecimal, hd] at h
    cases h
  | some r =>
    obtain ⟨ip2, fp2⟩ := r
    simp only [readDecimal, hd, Option.some.injEq, Prod.mk.injEq] at h
    obtain ⟨hneg, rfl, rfl⟩ := h
    obtain ⟨hip, hfp, hne, hb⟩ := readDigits_eq_some _ _ _ hd
    cases g with
    | nil =>
      simp only [List.head?_nil, List.drop_nil] at hneg hb
      have hneg2 : neg = false := by simpa using hneg.symm
      subst hneg2
      exact ⟨hip, hfp, hne, by simpa using hb⟩
    | cons x t =>
      by_cases hx : x = '-'
      · subst hx
        have hneg2 : neg = true := by simpa using hneg.symm
        subst hneg2
        simp only [List.head?_cons, beq_self_eq_true, Bool.true_or, if_true, List.drop_one,
          List.tail_cons] at hb
        refine ⟨hip, hfp, hne, ?_⟩
        rcases hb with hb | ⟨hf, hb⟩
        · exact Or.inl (by simp [hb])
        · exact Or.inr ⟨hf, by simp [hb]⟩
      · have hplus : x ≠ '+' := by
          rintro rfl
          exact absurd (hcls '+' (List.mem_cons_self _ _)) (by decide)
        have hneg2 : neg = false := by
          rw [← hneg]
          simp [hx]
        subst hneg2
        have e1 : (some x == some '-') = false := by simpa using hx
        have e2 : (some x == some '+') = false := by simpa using hplus
        simp only [List.head?_cons, e1, e2, Bool.or_self, Bool.false_eq_true, if_false] at hb
        exact ⟨hip, hfp, hne, by simpa using hb⟩

/-- ParseFloat of a decimal numeral is the float64 nearest to its value. -/
theorem ParseFloat_decimal (g : Line) (neg : Bool) (ip fp : Line)
    (h : IsDecimal g neg ip fp) :
    ParseFloat g = nearest64 neg (decimal (ip ++ fp)) (10 ^ fp.length) := by
  simp only [ParseFloat, readDecimal_of_isDecimal g neg ip fp h]

/-- ParseFloat of a text of digits, points and minus signs that is not a
decimal numeral is +0 (a syntax error). -/
theorem ParseFloat_not_decimal (g : Line) (hcls : ∀ ch ∈ g, isTmpChar ch = true)
    (h : ¬ ∃ neg ip fp, IsDecimal g neg ip fp) : ParseFloat g = Float64.zero := by
  cases hq : readDecimal g with
  | none => simp only [ParseFloat, hq]
  | some r =>
    obtain ⟨neg, ip, fp⟩ := r
    exact absurd ⟨neg, ip, fp, isDecimal_of_readDecimal g neg ip fp hcls hq⟩ h

theorem not_isDecimal_of_readDecimal (g : Line) (h : readDecimal g = none) :
    ¬ ∃ neg ip fp, IsDecimal g neg ip fp := by
  rintro ⟨neg, ip, fp, hd⟩
  rw [readDecimal_of_isDecimal g neg ip fp hd] at h
  cases h

theorem isTmpChar_of_isHumChar (ch : Char) (h : isHumChar ch = true) :
    isTmpChar ch = true := by
  simp only [isHumChar, isTmpChar, Bool.or_eq_true] at h ⊢
  exact Or.inl h

/-- Values of `nearest64` against the encodings of the float64 constants 0.5,
1, 45.6, -7.8 and 9007199254740993 (a tie, rounded to even). -/
theorem nearest64_examples :
    nearest64 false 5 10 = .finite false 4503599627370496 (-53) ∧
      nearest64 false 1 1 = .finite false 4503599627370496 (-52) ∧
      nearest64 false 456 10 = .finite false 6417629469002957 (-47) ∧
      nearest64 true 78 10 = .finite true 8782019273372467 (-50) ∧
      nearest64 false 9007199254740993 1 = .finite false 4503599627370496 1 := by
  decide

theorem not_startsMatch_of_matchAt (s : Line) (h : matchAt s = none) : ¬ StartsMatch s :=
  fun hs => matchAt_of_starts s hs h

/-- C2 (amended): every line that contains a match of the telemetry pattern has
a leftmost match (no match starts inside `pre`, the last group is maximal),
and for the capture groups `g1`, `g2`, `g3` of the leftmost match the loop of
readDevice sends exactly one Sample `d` for the line and goes on with the next
line.  CO2 is the decimal value of the first group, capped at 2^63-1;
Humidity and Temperature are the float64 nearest to the decimal value of the
second and third group when the group is a decimal numeral, and +0 when it is
not; Tags are the configured tags. -/
theorem readLoop_sample {O : Type} (now : Nat → Nat) (scanErr : Option Nat) (i : Nat)
    (text : Line) (rest : List Line) (c : State O Float64)
    (h : ∃ k, StartsMatch (text.drop k)) :
    (∃ pre body g1 g2 g3 post,
      text = pre ++ body ∧ MatchAt body g1 g2 g3 post ∧
        ∀ k < pre.length, ¬ StartsMatch (text.drop k)) ∧
    ∀ pre body g1 g2 g3 post,
      text = pre ++ body → MatchAt body g1 g2 g3 post →
      (∀ k < pre.length, ¬ StartsMatch (text.drop k)) →
      ∃ d : Data Float64,
        readLoop ParseFloat now scanErr i (text :: rest) c =
          readLoop ParseFloat now scanErr (i + 1) rest
            { c with scanner := rest, trace := c.trace ++ [Effect.send d] } ∧
        d.Timestamp = now i ∧ d.Tags = c.Tags ∧
        d.CO2 = min (decimal g1 : Int) (2 ^ 63 - 1) ∧
        (∀ neg ip fp, IsDecimal g2 neg ip fp →
          d.Humidity = nearest64 neg (decimal (ip ++ fp)) (10 ^ fp.length)) ∧
        ((¬ ∃ neg ip fp, IsDecimal g2 neg ip fp) → d.Humidity = Float64.zero) ∧
        (∀ neg ip fp, IsDecimal g3 neg ip fp →
          d.Temperature = nearest64 neg (decimal (ip ++ fp)) (10 ^ fp.length)) ∧
        ((¬ ∃ neg ip fp, IsDecimal g3 neg ip fp) → d.Temperature = Float64.zero) := by
  constructor
  · obtain ⟨k, hk⟩ := h
    cases hq : findFirst text with
    | none => exact absurd hq (findFirst_of_starts text k hk)
    | some m =>
      obtain ⟨g1, g2, g3⟩ := m
      obtain ⟨pre, body, post, hs, hm, hleft⟩ := findFirst_eq_some text g1 g2 g3 hq
      exact ⟨pre, body, g1, g2, g3, post, hs, hm, hleft⟩
  · intro pre body g1 g2 g3 post hs hm hleft
    have hq : findFirst text = some (g1, g2, g3) := by
      rw [hs]
      exact findFirst_leftmost pre body g1 g2 g3 post hm (by rw [← hs]; exact hleft)
    obtain ⟨_, h1, h2, h3, _⟩ := hm
    refine ⟨{ Timestamp := now i, Tags := c.Tags, CO2 := parseInt g1,
              Humidity := ParseFloat g2, Temperature := ParseFloat g3 }, ?_, rfl, rfl,
      parseInt_digits g1 h1.1 h1.2,
      fun neg ip fp hd => ParseFloat_decimal g2 neg ip fp hd,
      ParseFloat_not_decimal g2 (fun ch hch => isTmpChar_of_isHumChar ch (h2.2 ch hch)),
      fun neg ip fp hd => ParseFloat_decimal g3 neg ip fp hd,
      ParseFloat_not_decimal g3 h3.2⟩
    rw [readLoop]
    simp only [readLine, hq]

/-- Witness of C2: the line `t=1 CO2=123,HUM=45.6,TMP=-7.8 end` yields one
Sample with co2 = 123, humidity the float64 45.6 (6417629469002957 * 2^-47) and
temperature the float64 -7.8 (-8782019273372467 * 2^-50). -/
theorem readLoop_sample_witness :
    (∃ k, StartsMatch ("t=1 CO2=123,HUM=45.6,TMP=-7.8 end".toList.drop k)) ∧
    ∃ d : Data Float64,
      readLoop ParseFloat id none 0 ["t=1 CO2=123,HUM=45.6,TMP=-7.8 end".toList] demo64 =
        readLoop ParseFloat id none 1 []
          { demo64 with scanner := [], trace := demo64.trace ++ [Effect.send d] } ∧
      d.Tags = ["room"] ∧
      d.CO2 = 123 ∧
      d.Humidity = nearest64 false 456 10 ∧
      d.Humidity = .finite false 6417629469002957 (-47) ∧
      d.Temperature = nearest64 true 78 10 ∧
      d.Temperature = .finite true 8782019273372467 (-50) := by
  have hstart : ∃ k, StartsMatch ("t=1 CO2=123,HUM=45.6,TMP=-7.8 end".toList.drop k) :=
    ⟨4, "123".toList, "45.6".toList, "-7.8".toList, " end".toList, by decide, by decide,
      by decide, by decide⟩
  have hleft : ∀ k < "t=1 ".toList.length,
      ¬ StartsMatch ("t=1 CO2=123,HUM=45.6,TMP=-7.8 end".toList.drop k) :=
    fun k hk => not_startsMatch_of_matchAt _
      ((by decide : ∀ k < 4,
        matchAt ("t=1 CO2=123,HUM=45.6,TMP=-7.8 end".toList.drop k) = none) k hk)
  obtain ⟨d, hrun, _, htags, hco2, hhum, _, htmp, _⟩ :=
    (readLoop_sample id none 0 "t=1 CO2=123,HUM=45.6,TMP=-7.8 end".toList [] demo64
      hstart).2 "t=1 ".toList "CO2=123,HUM=45.6,TMP=-7.8 end".toList "123".toList
      "45.6".toList "-7.8".toList " end".toList rfl (by unfold MatchAt; decide) hleft
  have e1 := hhum false "45".toList "6".toList (by unfold IsDecimal; decide)
  have e2 := htmp true "7".toList "8".toList (by unfold IsDecimal; decide)
  refine ⟨hstart, d, hrun, htags, ?_, e1, ?_, e2, ?_⟩
  · rw [hco2]
    decide
  · rw [e1]
    decide
  · rw [e2]
    decide

/-- C2 (counterexample): in the line
`CO2=99999999999999999999,HUM=1.2.3,TMP=- CO2=123,HUM=45.6,TMP=-7.8` the
leftmost match has the groups `99999999999999999999`, `1.2.3` and `-`.  The
one Sample sent for it has CO2 = 9223372036854775807, which is not the decimal
value of the first group, and Humidity = Temperature = +0 although neither
`1.2.3` nor `-` is a decimal numeral; the line contains
`CO2=123,HUM=45.6,TMP=-7.8` and yet co2 is not 123. -/
theorem readDevice_sample_not_decimal :
    findFirst "CO2=99999999999999999999,HUM=1.2.3,TMP=- CO2=123,HUM=45.6,TMP=-7.8".toList =
        some ("99999999999999999999".toList, "1.2.3".toList, "-".toList) ∧
      (readDevice ParseFloat id none
          { demo64 with scanner :=
            ["CO2=99999999999999999999,HUM=1.2.3,TMP=- CO2=123,HUM=45.6,TMP=-7.8".toList]
          }).1.trace =
        [Effect.send { Timestamp := 0, CO2 := 9223372036854775807,
                       Humidity := Float64.zero, Temperature := Float64.zero,
                       Tags := ["room"] }] ∧
      (decimal "99999999999999999999".toList : Int) ≠ 9223372036854775807 ∧
      (¬ ∃ neg ip fp, IsDecimal "1.2.3".toList neg ip fp) ∧
      (¬ ∃ neg ip fp, IsDecimal "-".toList neg ip fp) ∧
      "CO2=99999999999999999999,HUM=1.2.3,TMP=- CO2=123,HUM=45.6,TMP=-7.8".toList.drop 41 =
        "CO2=123,HUM=45.6,TMP=-7.8".toList :=
  ⟨by decide, by decide, by decide, not_isDecimal_of_readDecimal _ (by decide),
    not_isDecimal_of_readDecimal _ (by decide), by decide⟩

/-- C8 (amended): for every line whose first six bytes are `OK STP` and in
which no match of the telemetry pattern starts, readDevice returns nil on
reading that line: nothing is added to the trace (no Sample, no cleanup) and
the lines after it stay unread. -/
theorem readLoop_stop_echo {O F : Type} (parseFloat : Line → F) (now : Nat → Nat)
    (scanErr : Option Nat) (i : Nat) (text : Line) (rest : List Line) (c : State O F)
    (hpre : "OK STP".toList <+: text) (hno : ∀ k, ¬ StartsMatch (text.drop k)) :
    readLoop parseFloat now scanErr i (text :: rest) c =
      ({ c with scanner := rest }, .returned none) := by
  have hf := findFirst_eq_none _ hno
  have hs : sliceTo text 6 = some "OK STP".toList := by
    obtain ⟨t, rfl⟩ := hpre
    simp [sliceTo]
  rw [readLoop]
  simp only [readLine, hf, hs, if_true]

theorem not_startsMatch_of_findFirst (s : Line) (h : findFirst s = none) :
    ∀ k, ¬ StartsMatch (s.drop k) :=
  fun k hk => findFirst_of_starts s k hk h

/-- Witness of C8: the line `OK STP` followed by another line. -/
theorem readLoop_stop_echo_witness :
    "OK STP".toList <+: "OK STP".toList ∧
      (∀ k, ¬ StartsMatch ("OK STP".toList.drop k)) ∧
      readLoop id id none 0 ["OK STP".toList, "CO2=1,HUM=2,TMP=3".toList] demo =
        ({ demo with scanner := ["CO2=1,HUM=2,TMP=3".toList] }, .returned none) :=
  ⟨List.prefix_refl _, not_startsMatch_of_findFirst _ (by decide),
    readLoop_stop_echo id id none 0 _ _ demo (List.prefix_refl _)
      (not_startsMatch_of_findFirst _ (by decide))⟩

/-- C8 (counterexample): the line `OK STP CO2=1,HUM=2,TMP=3` has the first six
bytes `OK STP`, yet readDevice sends a Sample for it and goes on reading: it
returns only at the next line, `OK STP`. -/
theorem readDevice_stop_prefix_with_sample :
    "OK STP".toList <+: "OK STP CO2=1,HUM=2,TMP=3".toList ∧
      (readDevice id id none
          { demo with scanner := ["OK STP CO2=1,HUM=2,TMP=3".toList, "OK STP".toList,
                                  "last".toList] }).1.trace =
        [Effect.send { Timestamp := 0, CO2 := 1, Humidity := "2".toList,
                       Temperature := "3".toList, Tags := ["room"] }] ∧
      (readDevice id id none
          { demo with scanner := ["OK STP CO2=1,HUM=2,TMP=3".toList, "OK STP".toList,
                                  "last".toList] }).1.scanner = ["last".toList] := by
  decide

/-- C9 (the code at the failing inputs): an empty line or a line of one byte
in answer to the first command makes prepareDevice panic at `t[:2]` after one
write, and a line of fewer than six bytes without a telemetry match makes
readDevice panic at `text[:6]`, also when lines follow it. -/
theorem short_line_panics :
    (prepareDevice (fun _ => none) { demo with scanner := [[], "OK".toList] }).2 = .panicked ∧
      (prepareDevice (fun _ => none) { demo with scanner := ["K".toList, "OK".toList] }).2
        = .panicked ∧
      (prepareDevice (fun _ => none) { demo with scanner := [[], "OK".toList] }).1.trace =
        [Effect.write "STP\r\n".toList] ∧
      (readDevice id id none { demo with scanner := [[], "OK STP".toList] }).2 = .panicked ∧
      (readDevice id id none { demo with scanner := ["OK ST".toList, "OK STP".toList] }).2
        = .panicked := by
  decide

/-! ## Facts about maps -/

theorem GoMap.mem_delete {O : Type} (A : GoMap O) (n k : String) (o : O) :
    (k, o) ∈ A.delete n ↔ (k, o) ∈ A ∧ k ≠ n := by
  simp [GoMap.delete]

theorem GoMap.delete_of_not_mem {O : Type} (A : GoMap O) (n : String) (h : n ∉ A.keys) :
    A.delete n = A := by
  unfold GoMap.delete
  rw [List.filter_eq_self]
  intro e he
  have : e.1 ≠ n := fun hk => h (hk ▸ List.mem_map_of_mem Prod.fst he)
  simpa using this

theorem GoMap.length_delete {O : Type} (A : GoMap O) (n : String) (h : A.keys.Nodup) :
    A.length ≤ (A.delete n).length + 1 := by
  induction A with
  | nil => simp
  | cons e t ih =>
    simp only [GoMap.keys, List.map_cons, List.nodup_cons] at h
    by_cases hk : e.1 = n
    · have h1 : GoMap.delete (e :: t) n = GoMap.delete t n := by simp [GoMap.delete, hk]
      have h2 : GoMap.delete t n = t := GoMap.delete_of_not_mem t n (hk ▸ h.1)
      rw [h1, h2]
      simp
    · have h1 : GoMap.delete (e :: t) n = e :: GoMap.delete t n := by
        simp [GoMap.delete, hk]
      rw [h1]
      simpa using ih h.2

theorem GoMap.keys_delete {O : Type} (A : GoMap O) (n : String) :
    (A.delete n).keys = A.keys.filter (fun k => decide (k ≠ n)) := by
  unfold GoMap.keys GoMap.delete
  rw [List.filter_map]
  rfl

theorem GoMap.nodup_delete {O : Type} (A : GoMap O) (n : String) (h : A.keys.Nodup) :
    (A.delete n).keys.Nodup := by
  rw [GoMap.keys_delete]
  exact h.filter _

theorem GoMap.not_mem_keys_delete {O : Type} (A : GoMap O) (n : String) :
    n ∉ (A.delete n).keys := by
  rw [GoMap.keys_delete]
  simp

theorem GoMap.length_delete_lt {O : Type} (A : GoMap O) (n : String) (h : n ∈ A.keys) :
    (A.delete n).length < A.length := by
  induction A with
  | nil => simp [GoMap.keys] at h
  | cons e t ih =>
    by_cases hk : e.1 = n
    · have h1 : GoMap.delete (e :: t) n = GoMap.delete t n := by simp [GoMap.delete, hk]
      rw [h1]
      exact Nat.lt_succ_of_le (List.length_filter_le _ _)
    · have h1 : GoMap.delete (e :: t) n = e :: GoMap.delete t n := by
        simp [GoMap.delete, hk]
      have hn : n ∈ GoMap.keys t := by
        simp only [GoMap.keys, List.map_cons, List.mem_cons] at h
        rcases h with h | h
        · exact absurd h.symm hk
        · exact h
      rw [h1]
      simpa using ih hn

/-! ## Facts about dispatch and cleanup -/

theorem dispatch_cons_running {O F : Type} (c c1 : State O F) (ev : Event F)
    (evs : List (Event F)) (h : dispatchStep c ev = (c1, .running)) :
    dispatch (ev :: evs) c = dispatch evs c1 := by
  rw [dispatch, h]

theorem dispatch_cons_returned {O F : Type} (c c1 : State O F) (ev : Event F)
    (evs : List (Event F)) (h : dispatchStep c ev = (c1, .returned)) :
    dispatch (ev :: evs) c = (c1, .returned, evs) := by
  rw [dispatch, h]

theorem dispatch_cons_panicked {O F : Type} (c c1 : State O F) (ev : Event F)
    (evs : List (Event F)) (h : dispatchStep c ev = (c1, .panicked)) :
    dispatch (ev :: evs) c = (c1, .panicked, evs) := by
  rw [dispatch, h]

theorem dispatchStep_data {O F : Type} (c : State O F) (a : Nat) (d : Data F)
    (ha : c.activeOutputters = some a) :
    dispatchStep c (.data d) =
      ({ c with trace := c.trace ++ (c.heap a).map (fun e => Effect.output e.1 e.2 d) },
        .running) := by
  simp [dispatchStep, ha]

theorem dispatchStep_deactivate {O F : Type} (c : State O F) (a : Nat) (n : String)
    (ha : c.activeOutputters = some a) (hne : (c.heap a).delete n ≠ []) :
    dispatchStep c (.deactivate n) =
      ({ c with heap := Function.update c.heap a ((c.heap a).delete n)
                activeOutputters := some a }, .running) := by
  have : ¬ ((c.heap a).delete n).length = 0 := by
    simpa [List.length_eq_zero] using hne
  simp [dispatchStep, ha, this]

theorem dispatchStep_deactivate_last {O F : Type} (c : State O F) (a : Nat) (n : String)
    (ha : c.activeOutputters = some a) (he : (c.heap a).delete n = []) :
    dispatchStep c (.deactivate n) =
      match cleanup { c with heap := Function.update c.heap a ((c.heap a).delete n) } with
      | some c2 => (c2, .returned)
      | none => ({ c with heap := Function.update c.heap a ((c.heap a).delete n) },
                  .panicked) := by
  simp [dispatchStep, ha, he]

theorem dispatch_data {O F : Type} (a : Nat) (ds : List (Data F)) :
    ∀ c : State O F, c.activeOutputters = some a →
      dispatch (ds.map Event.data) c =
        ({ c with trace := c.trace ++ fanOut (c.heap a) ds }, .running, []) := by
  induction ds with
  | nil =>
    intro c _
    cases c
    simp [dispatch, fanOut]
  | cons d ds ih =>
    intro c ha
    rw [List.map_cons, dispatch_cons_running _ _ _ _ (dispatchStep_data c a d ha)]
    rw [ih { c with trace := c.trace ++ (c.heap a).map (fun e => Effect.output e.1 e.2 d) } ha]
    simp [fanOut]

theorem cleanup_first {O F : Type} (c : State O F) (a : Nat)
    (hc : c.cleanup = some false) (ha : c.activeOutputters = some a) :
    cleanup c = some { c with
      cleanup := some true
      trace := c.trace ++ Effect.cleanupCall :: releaseSteps (c.heap a) c.portOpen } := by
  simp [cleanup, hc, ha, releaseSteps]

theorem cleanup_latched {O F : Type} (c : State O F) (hc : c.cleanup = some true) :
    cleanup c = some { c with trace := c.trace ++ [Effect.cleanupCall] } := by
  simp [cleanup, hc]

/-- What an invocation of cleanup adds to the trace: the call, and the release
steps unless the body already ran. -/
theorem cleanup_installed {O F : Type} (c : State O F) (a : Nat) (b : Bool)
    (hc : c.cleanup = some b) (ha : c.activeOutputters = some a) :
    cleanup c = some { c with
      cleanup := some true
      trace := c.trace ++ Effect.cleanupCall ::
        (if b then [] else releaseSteps (c.heap a) c.portOpen) } := by
  cases b with
  | false => simpa using cleanup_first c a hc ha
  | true =>
    rw [cleanup_latched c hc]
    cases c
    simp_all

/-- After a deactivation notice for `n`, the calls dispatch adds to the trace
never include an Output of a sink stored under `n`. -/
theorem dispatch_no_output {O F : Type} (a : Nat) (n : String) (evs : List (Event F)) :
    ∀ c : State O F, c.activeOutputters = some a → n ∉ (c.heap a).keys →
      ∃ t, (dispatch evs c).1.trace = c.trace ++ t ∧ ∀ o d, Effect.output n o d ∉ t := by
  induction evs with
  | nil =>
    intro c _ _
    exact ⟨[], by simp [dispatch], by simp⟩
  | cons ev evs ih =>
    intro c ha hn
    cases ev with
    | closed =>
      refine ⟨[], ?_, by simp⟩
      rw [dispatch_cons_returned c c _ _ (by simp [dispatchStep])]
      simp
    | data d =>
      rw [dispatch_cons_running _ _ _ _ (dispatchStep_data c a d ha)]
      obtain ⟨t, ht, hout⟩ :=
        ih { c with trace := c.trace ++ (c.heap a).map (fun e => Effect.output e.1 e.2 d) }
          ha hn
      refine ⟨(c.heap a).map (fun e => Effect.output e.1 e.2 d) ++ t, ?_, ?_⟩
      · rw [ht]
        simp
      · intro o d2 hmem
        rcases List.mem_append.1 hmem with h | h
        · obtain ⟨e, he, heq⟩ := List.mem_map.1 h
          injection heq with h1 h2 h3
          exact hn (h1 ▸ List.mem_map_of_mem Prod.fst he)
        · exact hout o d2 h
    | deactivate m =>
      by_cases he : (c.heap a).delete m = []
      · have hstep := dispatchStep_deactivate_last c a m ha he
        cases hq : cleanup { c with heap := Function.update c.heap a ((c.heap a).delete m) } with
        | none =>
          rw [hq] at hstep
          rw [dispatch_cons_panicked _ _ _ _ hstep]
          exact ⟨[], by simp, by simp⟩
        | some c2 =>
          rw [hq] at hstep
          rw [dispatch_cons_returned _ _ _ _ hstep]
          cases hb : c.cleanup with
          | none => simp [cleanup, hb] at hq
          | some b =>
            rw [cleanup_installed
              { c with heap := Function.update c.heap a ((c.heap a).delete m) } a b hb ha] at hq
            injection hq with hq
            subst hq
            refine ⟨_, rfl, ?_⟩
            intro o d hmem
            cases b <;> simp [releaseSteps] at hmem
      · rw [dispatch_cons_running _ _ _ _ (dispatchStep_deactivate c a m ha he)]
        have hn2 : n ∉ ((c.heap a).delete m).keys := by
          rw [GoMap.keys_delete]
          exact fun h => hn (List.mem_of_mem_filter h)
        obtain ⟨t, ht, hout⟩ :=
          ih { c with heap := Function.update c.heap a ((c.heap a).delete m)
                      activeOutputters := some a } rfl (by simpa using hn2)
        exact ⟨t, ht, hout⟩

/-- C3: for an active map with at least two entries under distinct names and
a name `n` among them, a deactivation notice for `n` leaves the map with
exactly the entries not stored under `n` (one fewer), dispatch does not invoke
cleanup and keeps running, every Sample received after the notice is passed
to Output of each remaining entry exactly once and to nothing else, and
whatever events follow no Output of a sink stored under `n` is ever called. -/
theorem dispatch_after_deactivation {O F : Type} (c : State O F) (a : Nat) (n : String)
    (ha : c.activeOutputters = some a) (hkeys : (c.heap a).keys.Nodup)
    (h2 : 2 ≤ (c.heap a).length) (hn : n ∈ (c.heap a).keys) :
    (∀ k o, (k, o) ∈ (c.heap a).delete n ↔ (k, o) ∈ c.heap a ∧ k ≠ n) ∧
      ((c.heap a).delete n).keys.Nodup ∧
      ((c.heap a).delete n).length + 1 = (c.heap a).length ∧
      (∀ ds : List (Data F),
        dispatch (Event.deactivate n :: ds.map Event.data) c =
          ({ c with
              heap := Function.update c.heap a ((c.heap a).delete n)
              activeOutputters := some a
              trace := c.trace ++ fanOut ((c.heap a).delete n) ds }, .running, [])) ∧
      (∀ evs : List (Event F), ∃ t,
        (dispatch (Event.deactivate n :: evs) c).1.trace = c.trace ++ t ∧
          ∀ o d, Effect.output n o d ∉ t) := by
  have hle := GoMap.length_delete (c.heap a) n hkeys
  have hlt := GoMap.length_delete_lt (c.heap a) n hn
  have hne : (c.heap a).delete n ≠ [] := by
    intro h0
    rw [h0] at hle
    simp at hle
    omega
  have hstep := dispatchStep_deactivate c a n ha hne
  refine ⟨GoMap.mem_delete _ n, GoMap.nodup_delete _ n hkeys, by omega, ?_, ?_⟩
  · intro ds
    rw [dispatch_cons_running _ _ _ _ hstep, dispatch_data a ds _ rfl]
    simp
  · intro evs
    rw [dispatch_cons_running _ _ _ _ hstep]
    exact dispatch_no_output a n evs _ rfl (by simpa using GoMap.not_mem_keys_delete _ n)

/-- Witness of C3: the active set is stdout and prometheus, prometheus
deactivates itself, then two Samples arrive: both go to stdout only. -/
theorem dispatch_after_deactivation_witness :
    dispatch [Event.deactivate "prometheus", Event.data sample, Event.data sample] demo =
      ({ demo with
          heap := Function.update demo.heap 0 [("stdout", 1)]
          activeOutputters := some 0
          trace := [Effect.output "stdout" 1 sample, Effect.output "stdout" 1 sample] },
        .running, []) :=
  (dispatch_after_deactivation demo 0 "prometheus" rfl (by decide) (by decide)
    (by decide)).2.2.2.1 [sample, sample]

/-- C10 (the code at the failing input): with stdout and prometheus in the
published map at address 0, a deactivation notice for prometheus leaves the
stored reference and the set of map objects as they were and removes the
entry from the map at address 0 itself, so a snapshot loaded before the
notice no longer has the members it had. -/
theorem deactivation_mutates_published_map :
    demo.activeOutputters = some 0 ∧
      demo.heap 0 = [("stdout", 1), ("prometheus", 3)] ∧
      (dispatchStep demo (Event.deactivate "prometheus" : Event Line)).1.activeOutputters
        = some 0 ∧
      (dispatchStep demo (Event.deactivate "prometheus" : Event Line)).1.next = demo.next ∧
      (dispatchStep demo (Event.deactivate "prometheus" : Event Line)).1.heap 0
        = [("stdout", 1)] := by
  decide

theorem cleanupTimes_latched {O F : Type} (m : Nat) :
    ∀ c : State O F, c.cleanup = some true →
      cleanupTimes m c =
        some { c with trace := c.trace ++ List.replicate m Effect.cleanupCall } := by
  induction m with
  | zero =>
    intro c _
    cases c
    simp [cleanupTimes]
  | succ m ih =>
    intro c hc
    rw [cleanupTimes, cleanup_latched c hc, Option.some_bind,
      ih { c with trace := c.trace ++ [Effect.cleanupCall] } hc]
    simp [List.replicate_succ]

theorem releasesOf_append {O F : Type} (t u : List (Effect O F)) :
    releasesOf (t ++ u) = releasesOf t ++ releasesOf u := by
  simp [releasesOf]

theorem releasesOf_outputs {O F : Type} (A : GoMap O) (d : Data F) :
    releasesOf (A.map (fun e => (Effect.output e.1 e.2 d : Effect O F))) = [] := by
  induction A with
  | nil => rfl
  | cons e t ih =>
    simp only [releasesOf, List.map_cons] at ih ⊢
    simp [List.filter, ih]

theorem cleanupCalls_append {O F : Type} (t u : List (Effect O F)) :
    cleanupCalls (t ++ u) = cleanupCalls t + cleanupCalls u := by
  simp [cleanupCalls]

theorem cleanupCalls_outputs {O F : Type} (A : GoMap O) (d : Data F) :
    cleanupCalls (A.map (fun e => (Effect.output e.1 e.2 d : Effect O F))) = 0 := by
  induction A with
  | nil => rfl
  | cons e t ih =>
    simp only [cleanupCalls, List.map_cons] at ih ⊢
    simp [List.countP_cons, ih]

theorem cleanupCalls_releaseSteps {O F : Type} (A : GoMap O) (b : Bool) :
    cleanupCalls (releaseSteps A b : List (Effect O F)) = 0 := by
  have h : cleanupCalls (A.map (fun e => (Effect.close e.1 e.2 : Effect O F))) = 0 := by
    induction A with
    | nil => rfl
    | cons e t ih =>
      simp only [cleanupCalls, List.map_cons] at ih ⊢
      simp [List.countP_cons, ih]
  unfold releaseSteps
  rw [cleanupCalls_append, cleanupCalls_append, h]
  cases b <;> simp [cleanupCalls, List.countP_cons]

/-- Once the body of cleanup ran, dispatch performs no release step whatever
events it receives, and the guard stays set. -/
theorem dispatch_latched {O F : Type} (evs : List (Event F)) :
    ∀ c : State O F, c.cleanup = some true →
      (dispatch evs c).1.cleanup = some true ∧
        releasesOf (dispatch evs c).1.trace = releasesOf c.trace := by
  induction evs with
  | nil =>
    intro c hc
    simp [dispatch, hc]
  | cons ev evs ih =>
    intro c hc
    cases ev with
    | closed =>
      rw [dispatch_cons_returned c c _ _ (by simp [dispatchStep])]
      exact ⟨hc, rfl⟩
    | data d =>
      cases ha : c.activeOutputters with
      | none =>
        rw [dispatch_cons_panicked c c _ _ (by simp [dispatchStep, ha])]
        exact ⟨hc, rfl⟩
      | some a =>
        rw [dispatch_cons_running _ _ _ _ (dispatchStep_data c a d ha)]
        obtain ⟨h1, h2⟩ :=
          ih { c with trace := c.trace ++ (c.heap a).map (fun e => Effect.output e.1 e.2 d) } hc
        refine ⟨h1, ?_⟩
        rw [h2]
        simp [releasesOf_append, releasesOf_outputs]
    | deactivate m =>
      cases ha : c.activeOutputters with
      | none =>
        rw [dispatch_cons_panicked c c _ _ (by simp [dispatchStep, ha])]
        exact ⟨hc, rfl⟩
      | some a =>
        by_cases he : (c.heap a).delete m = []
        · have hstep := dispatchStep_deactivate_last c a m ha he
          rw [cleanup_latched
            { c with heap := Function.update c.heap a ((c.heap a).delete m) } hc] at hstep
          rw [dispatch_cons_returned _ _ _ _ hstep]
          refine ⟨hc, ?_⟩
          simp [releasesOf]
        · rw [dispatch_cons_running _ _ _ _ (dispatchStep_deactivate c a m ha he)]
          exact ih { c with heap := Function.update c.heap a ((c.heap a).delete m)
                            activeOutputters := some a } hc

/-- Once the body of cleanup ran, readDevice performs no release step whatever
it reads and however it ends, and the guard stays set. -/
theorem readLoop_latched {O F : Type} (parseFloat : Line → F) (now : Nat → Nat)
    (scanErr : Option Nat) (lines : List Line) :
    ∀ (i : Nat) (c : State O F), c.cleanup = some true →
      (readLoop parseFloat now scanErr i lines c).1.cleanup = some true ∧
        releasesOf (readLoop parseFloat now scanErr i lines c).1.trace = releasesOf c.trace := by
  induction lines with
  | nil =>
    intro i c hc
    cases scanErr with
    | none => simp [readLoop, hc]
    | some e =>
      rw [readLoop, cleanup_latched { c with scanner := [] } hc]
      simp [hc, releasesOf]
  | cons text rest ih =>
    intro i c hc
    rw [readLoop]
    cases hq : readLine parseFloat c.Tags (now i) text with
    | emit d =>
      simp only
      obtain ⟨h1, h2⟩ := ih (i + 1)
        { c with scanner := rest, trace := c.trace ++ [Effect.send d] } hc
      refine ⟨h1, ?_⟩
      rw [h2]
      simp [releasesOf]
    | stop => exact ⟨hc, rfl⟩
    | unmatched => exact ih (i + 1) { c with scanner := rest } hc
    | panic => exact ⟨hc, rfl⟩

/-- Deactivation notices that cover every key of the active map make
dispatch return at the notice that empties the map: up to it the loop runs
without a cleanup call and without a release step, there cleanup is invoked,
and the events after it are not received. -/
theorem dispatch_until_empty {O F : Type} (a : Nat) (b : Bool) (evs : List (Event F)) :
    ∀ c : State O F, c.activeOutputters = some a → c.cleanup = some b →
      Event.closed ∉ evs → c.heap a ≠ [] →
      (∀ k ∈ (c.heap a).keys, Event.deactivate k ∈ evs) →
      ∃ pre n post c1,
        evs = pre ++ Event.deactivate n :: post ∧
        dispatch pre c = (c1, .running, []) ∧
        cleanupCalls c1.trace = cleanupCalls c.trace ∧
        releasesOf c1.trace = releasesOf c.trace ∧
        c1.heap a ≠ [] ∧ (c1.heap a).delete n = [] ∧
        dispatch evs c =
          ({ c1 with
              heap := Function.update c1.heap a []
              cleanup := some true
              trace := c1.trace ++ Effect.cleanupCall ::
                (if b then [] else releaseSteps [] c.portOpen) }, .returned, post) := by
  induction evs with
  | nil =>
    intro c _ _ _ hne hcover
    cases hA : c.heap a with
    | nil => exact absurd hA hne
    | cons e t =>
      have := hcover e.1 (by simp [hA, GoMap.keys])
      simp at this
  | cons ev evs ih =>
    intro c ha hc hclosed hne hcover
    have hclosed2 : Event.closed ∉ evs := fun h => hclosed (List.mem_cons_of_mem _ h)
    cases ev with
    | closed => simp at hclosed
    | data d =>
      have hstep := dispatchStep_data c a d ha
      obtain ⟨pre, n, post, c1, he, hpre, hcalls, hrel, h1, h2, hall⟩ :=
        ih { c with trace := c.trace ++ (c.heap a).map (fun e => Effect.output e.1 e.2 d) }
          ha hc hclosed2 hne
          (fun k hk => by simpa using hcover k hk)
      refine ⟨Event.data d :: pre, n, post, c1, by simp [he], ?_, ?_, ?_, h1, h2, ?_⟩
      · rw [dispatch_cons_running _ _ _ _ hstep, hpre]
      · rw [hcalls]
        simp [cleanupCalls_append, cleanupCalls_outputs]
      · rw [hrel]
        simp [releasesOf_append, releasesOf_outputs]
      · rw [dispatch_cons_running _ _ _ _ hstep, hall]
    | deactivate m =>
      by_cases he : (c.heap a).delete m = []
      · have hstep := dispatchStep_deactivate_last c a m ha he
        rw [cleanup_installed
          { c with heap := Function.update c.heap a ((c.heap a).delete m) } a b hc ha] at hstep
        refine ⟨[], m, evs, c, rfl, by simp [dispatch], rfl, rfl, hne, he, ?_⟩
        rw [dispatch_cons_returned _ _ _ _ hstep]
        simp [he]
      · have hstep := dispatchStep_deactivate c a m ha he
        obtain ⟨pre, n, post, c1, he2, hpre, hcalls, hrel, h1, h2, hall⟩ :=
          ih { c with heap := Function.update c.heap a ((c.heap a).delete m)
                      activeOutputters := some a } rfl hc hclosed2
            (by simpa using he)
            (by
              intro k hk
              have hk2 : k ∈ ((c.heap a).delete m).keys := by simpa using hk
              rw [GoMap.keys_delete, List.mem_filter] at hk2
              have hkm : k ≠ m := by simpa using hk2.2
              have := hcover k hk2.1
              simpa [hkm] using this)
        refine ⟨Event.deactivate m :: pre, n, post, c1, by simp [he2], ?_, hcalls, hrel,
          h1, h2, ?_⟩
        · rw [dispatch_cons_running _ _ _ _ hstep, hpre]
        · rw [dispatch_cons_running _ _ _ _ hstep, hall]

/-- C4: with the cleanup closure installed (`b` tells whether its body
already ran), any number of invocations in a row performs the release steps
(cancel, Close of the entries of the active map, STP if the port is open) only
in the first one and only if the body had not run before; once the body ran,
neither a direct invocation (signal handler) nor readDevice ending on a read
error nor dispatch on any events performs a release step, and the guard stays
set; and when the deactivation notices among the events cover every key of a
nonempty active map, dispatch runs without invoking cleanup up to the notice
that empties the map, invokes cleanup exactly once there, and returns with
the events after it not received. -/
theorem cleanup_once {O F : Type} (c : State O F) (a : Nat) (b : Bool)
    (ha : c.activeOutputters = some a) (hc : c.cleanup = some b) :
    (∀ m, cleanupTimes (m + 1) c =
        some { c with
          cleanup := some true
          trace := (c.trace ++ Effect.cleanupCall ::
            (if b then [] else releaseSteps (c.heap a) c.portOpen))
            ++ List.replicate m Effect.cleanupCall }) ∧
      (∀ c1 : State O F, c1.cleanup = some true →
        cleanup c1 = some { c1 with trace := c1.trace ++ [Effect.cleanupCall] } ∧
        (∀ evs : List (Event F),
          (dispatch evs c1).1.cleanup = some true ∧
            releasesOf (dispatch evs c1).1.trace = releasesOf c1.trace) ∧
        (∀ (parseFloat : Line → F) (now : Nat → Nat) (scanErr : Option Nat) (i : Nat)
            (lines : List Line),
          (readLoop parseFloat now scanErr i lines c1).1.cleanup = some true ∧
            releasesOf (readLoop parseFloat now scanErr i lines c1).1.trace
              = releasesOf c1.trace)) ∧
      (∀ evs : List (Event F), Event.closed ∉ evs → c.heap a ≠ [] →
        (∀ k ∈ (c.heap a).keys, Event.deactivate k ∈ evs) →
        (∃ pre n post c1,
          evs = pre ++ Event.deactivate n :: post ∧
          dispatch pre c = (c1, .running, []) ∧
          cleanupCalls c1.trace = cleanupCalls c.trace ∧
          releasesOf c1.trace = releasesOf c.trace ∧
          c1.heap a ≠ [] ∧ (c1.heap a).delete n = [] ∧
          dispatch evs c =
            ({ c1 with
                heap := Function.update c1.heap a []
                cleanup := some true
                trace := c1.trace ++ Effect.cleanupCall ::
                  (if b then [] else releaseSteps [] c.portOpen) }, .returned, post)) ∧
        (dispatch evs c).2.1 = .returned ∧
        cleanupCalls (dispatch evs c).1.trace = cleanupCalls c.trace + 1) := by
  refine ⟨?_, ?_, ?_⟩
  · intro m
    rw [cleanupTimes, cleanup_installed c a b hc ha, Option.some_bind,
      cleanupTimes_latched m _ rfl]
  · intro c1 h1
    exact ⟨cleanup_latched c1 h1, fun evs => dispatch_latched evs c1 h1,
      fun pf now scanErr i lines => readLoop_latched pf now scanErr lines i c1 h1⟩
  · intro evs hclosed hne hcover
    obtain ⟨pre, n, post, c1, he, hpre, hcalls, hrel, h1, h2, hall⟩ :=
      dispatch_until_empty a b evs c ha hc hclosed hne hcover
    refine ⟨⟨pre, n, post, c1, he, hpre, hcalls, hrel, h1, h2, hall⟩, ?_, ?_⟩
    · rw [hall]
    · rw [hall]
      have hcons : ∀ t : List (Effect O F),
          cleanupCalls (Effect.cleanupCall :: t) = cleanupCalls t + 1 := by
        intro t
        simp [cleanupCalls, List.countP_cons]
      simp only [cleanupCalls_append, hcons, hcalls]
      cases b
      · simp [cleanupCalls_releaseSteps]
      · simp [cleanupCalls]

/-- Witness of C4: three invocations of cleanup in a row on the state with
stdout and prometheus active, and dispatch receiving the notices of both. -/
theorem cleanup_once_witness :
    cleanupTimes 3 demo =
        some { demo with
          cleanup := some true
          trace := [Effect.cleanupCall, Effect.cancel, Effect.close "stdout" 1,
            Effect.close "prometheus" 3, Effect.write "STP\r\n".toList,
            Effect.cleanupCall, Effect.cleanupCall] } ∧
      (dispatch [Event.deactivate "prometheus", Event.data sample,
          Event.deactivate "stdout", Event.data sample] demo).2.1 = .returned ∧
      cleanupCalls (dispatch [Event.deactivate "prometheus", Event.data sample,
          Event.deactivate "stdout", Event.data sample] demo).1.trace
        = cleanupCalls demo.trace + 1 :=
  have h := cleanup_once demo 0 false rfl rfl
  ⟨h.1 2,
    (h.2.2 [Event.deactivate "prometheus", Event.data sample,
      Event.deactivate "stdout", Event.data sample] (by decide) (by decide) (by decide)).2⟩

theorem GoMap.keys_set {O : Type} (A : GoMap O) (k : String) (o : O) :
    (A.set k o).keys = if k ∈ A.keys then A.keys else A.keys ++ [k] := by
  induction A with
  | nil => simp [GoMap.set, GoMap.keys]
  | cons e t ih =>
    obtain ⟨k1, o1⟩ := e
    by_cases hk : k1 = k
    · simp [GoMap.set, GoMap.keys, hk]
    · have hk2 : ¬ k = k1 := fun h => hk h.symm
      simp only [GoMap.keys] at ih
      by_cases hm : k ∈ List.map Prod.fst t
      · simp [GoMap.set, GoMap.keys, hk, hk2, ih, hm]
      · simp [GoMap.set, GoMap.keys, hk, hk2, ih, hm]

theorem GoMap.nodup_set {O : Type} (A : GoMap O) (k : String) (o : O)
    (h : A.keys.Nodup) : (A.set k o).keys.Nodup := by
  rw [GoMap.keys_set]
  split
  · exact h
  · rename_i hk
    rw [List.nodup_append]
    exact ⟨h, List.nodup_singleton k, by
      intro x hx hx2
      simp only [List.mem_singleton] at hx2
      exact hk (hx2 ▸ hx)⟩

theorem GoMap.mem_set {O : Type} (A : GoMap O) (k : String) (o : O)
    (h : A.keys.Nodup) (k2 : String) (o2 : O) :
    (k2, o2) ∈ A.set k o ↔ (k2 = k ∧ o2 = o) ∨ ((k2, o2) ∈ A ∧ k2 ≠ k) := by
  induction A with
  | nil => simp [GoMap.set]
  | cons e t ih =>
    obtain ⟨k1, o1⟩ := e
    simp only [GoMap.keys, List.map_cons, List.nodup_cons] at h
    by_cases hk : k1 = k
    · subst hk
      have hnot : ∀ x : O, (k2, x) ∈ t → k2 ≠ k1 := by
        intro x hx heq
        exact h.1 (heq ▸ List.mem_map_of_mem Prod.fst hx)
      simp only [GoMap.set, if_true, List.mem_cons, Prod.mk.injEq]
      constructor
      · rintro (h1 | h1)
        · exact Or.inl h1
        · exact Or.inr ⟨Or.inr h1, hnot _ h1⟩
      · rintro (h1 | ⟨h1 | h1, h2⟩)
        · exact Or.inl h1
        · exact absurd h1.1 h2
        · exact Or.inr h1
    · simp only [GoMap.set, hk, if_false, List.mem_cons, Prod.mk.injEq]
      rw [ih h.2]
      constructor
      · rintro (h1 | h1 | h1)
        · exact Or.inr ⟨Or.inl h1, fun h2 => hk (h1.1 ▸ h2)⟩
        · exact Or.inl h1
        · exact Or.inr ⟨Or.inr h1.1, h1.2⟩
      · rintro (h1 | ⟨h1 | h1, h2⟩)
        · exact Or.inr (Or.inl h1)
        · exact Or.inl h1
        · exact Or.inr (Or.inr ⟨h1, h2⟩)

theorem initLoop_spec {O F : Type} (reg : GoMap O) (initErr : Nat → Option Nat)
    (names : List String) :
    ∀ (i : Nat) (a : GoMap O) (t : List (Effect O F)),
      a.keys.Nodup → (∀ k o, (k, o) ∈ a → reg.get k = some o) →
      (initLoop reg initErr i names a t).1.keys.Nodup ∧
      (∀ k o, (k, o) ∈ (initLoop reg initErr i names a t).1 ↔
        (k, o) ∈ a ∨
          (reg.get k = some o ∧ ∃ j, names[j]? = some k ∧ initErr (i + j) = none)) ∧
      (initLoop reg initErr i names a t).2 = t ++ initCalls reg names := by
  induction names with
  | nil =>
    intro i a t hnd _
    simp [initLoop, initCalls, hnd]
  | cons name rest ih =>
    intro i a t hnd hreg
    cases hget : reg.get name with
    | none =>
      obtain ⟨h1, h2, h3⟩ := ih (i + 1) a t hnd hreg
      simp only [initLoop, hget]
      refine ⟨h1, ?_, ?_⟩
      · intro k o
        rw [h2]
        constructor
        · rintro (h | ⟨hk, j, hj, he⟩)
          · exact Or.inl h
          · exact Or.inr ⟨hk, j + 1, by simpa using hj, by rw [← he]; congr 1; omega⟩
        · rintro (h | ⟨hk, j, hj, he⟩)
          · exact Or.inl h
          · cases j with
            | zero =>
              simp only [List.getElem?_cons_zero, Option.some.injEq] at hj
              rw [hj, hk] at hget
              cases hget
            | succ j =>
              exact Or.inr ⟨hk, j, by simpa using hj, by rw [← he]; congr 1; omega⟩
      · rw [h3]
        simp [initCalls, hget]
    | some o1 =>
      cases herr : initErr i with
      | some e =>
        obtain ⟨h1, h2, h3⟩ := ih (i + 1) a (t ++ [Effect.init name o1]) hnd hreg
        simp only [initLoop, hget, herr]
        refine ⟨h1, ?_, ?_⟩
        · intro k o
          rw [h2]
          constructor
          · rintro (h | ⟨hk, j, hj, he⟩)
            · exact Or.inl h
            · exact Or.inr ⟨hk, j + 1, by simpa using hj, by rw [← he]; congr 1; omega⟩
          · rintro (h | ⟨hk, j, hj, he⟩)
            · exact Or.inl h
            · cases j with
              | zero =>
                rw [Nat.add_zero, herr] at he
                cases he
              | succ j =>
                exact Or.inr ⟨hk, j, by simpa using hj, by rw [← he]; congr 1; omega⟩
        · rw [h3]
          simp [initCalls, hget]
      | none =>
        have hreg2 : ∀ k o, (k, o) ∈ a.set name o1 → reg.get k = some o := by
          intro k o hmem
          rcases (GoMap.mem_set a name o1 hnd k o).1 hmem with ⟨rfl, rfl⟩ | ⟨h, _⟩
          · exact hget
          · exact hreg k o h
        obtain ⟨h1, h2, h3⟩ := ih (i + 1) (a.set name o1) (t ++ [Effect.init name o1])
          (GoMap.nodup_set a name o1 hnd) hreg2
        simp only [initLoop, hget, herr]
        refine ⟨h1, ?_, ?_⟩
        · intro k o
          rw [h2, GoMap.mem_set a name o1 hnd]
          constructor
          · rintro ((⟨rfl, rfl⟩ | ⟨h, _⟩) | ⟨hk, j, hj, he⟩)
            · exact Or.inr ⟨hget, 0, by simp, by simpa using herr⟩
            · exact Or.inl h
            · exact Or.inr ⟨hk, j + 1, by simpa using hj, by rw [← he]; congr 1; omega⟩
          · rintro (h | ⟨hk, j, hj, he⟩)
            · by_cases hkn : k = name
              · subst hkn
                have := hreg k o h
                rw [hget] at this
                exact Or.inl (Or.inl ⟨rfl, (Option.some.inj this).symm⟩)
              · exact Or.inl (Or.inr ⟨h, hkn⟩)
            · cases j with
              | zero =>
                simp only [List.getElem?_cons_zero, Option.some.injEq] at hj
                subst hj
                rw [hget] at hk
                exact Or.inl (Or.inl ⟨rfl, (Option.some.inj hk).symm⟩)
              | succ j =>
                exact Or.inr ⟨hk, j, by simpa using hj, by rw [← he]; congr 1; omega⟩
        · rw [h3]
          simp [initCalls, hget]

/-- C6: AfterApply calls Initialize once for each configured name that is a
key of the registry and for no other name; the map `A` it builds holds exactly
the configured names that are keys of the registry and for which a call of
Initialize returned nil, each with its registry handle; it returns an error
if and only if `A` is empty, and then nothing but the trace changes (no
active set is stored, no cleanup closure installed); otherwise `A` is stored
as the active set and the cleanup closure is installed. -/
theorem AfterApply_active {O F : Type} (initErr : Nat → Option Nat)
    (output : List String) (c : State O F) :
    ∃ A : GoMap O,
      (∀ k o, (k, o) ∈ A ↔
        c.outputters.get k = some o ∧ ∃ j, output[j]? = some k ∧ initErr j = none) ∧
      A.keys.Nodup ∧
      (AfterApply initErr output c).1.trace = c.trace ++ initCalls c.outputters output ∧
      ((AfterApply initErr output c).2 ≠ none ↔ A = []) ∧
      (A = [] → AfterApply initErr output c =
        ({ c with trace := c.trace ++ initCalls c.outputters output },
          some .noActiveOutputters)) ∧
      (A ≠ [] → AfterApply initErr output c =
        ({ c with
            trace := c.trace ++ initCalls c.outputters output
            heap := Function.update c.heap c.next A
            next := c.next + 1
            activeOutputters := some c.next
            cleanup := some false }, none)) := by
  obtain ⟨h1, h2, h3⟩ := initLoop_spec c.outputters initErr output 0 [] c.trace
    (by simp [GoMap.keys]) (by simp)
  refine ⟨(initLoop c.outputters initErr 0 output [] c.trace).1, ?_, h1, ?_, ?_, ?_, ?_⟩
  · intro k o
    rw [h2]
    simp
  · unfold AfterApply
    simp only
    split <;> exact h3
  · unfold AfterApply
    simp only
    split
    · rename_i h0
      simp [List.length_eq_zero.1 h0]
    · rename_i h0
      simp only [ne_eq, not_true_eq_false, false_iff]
      exact fun h => h0 (by rw [h]; rfl)
  · intro hA
    unfold AfterApply
    simp only [hA, List.length_nil, if_true]
    rw [← h3]
  · intro hA
    have h0 : ¬ (initLoop c.outputters initErr 0 output [] c.trace).1.length = 0 := by
      rwa [List.length_eq_zero]
    unfold AfterApply
    simp only [h0, if_false]
    rw [← h3]

end Chissoku
